import Mathlib

/-!
Shallow embedding of the baywatch zone-occupancy monitor (TypeScript) in
Lean 4, together with proofs about its data model and algorithms.

Conventions used throughout:
* JavaScript numbers holding pixel values, counts and areas are modelled as
  `Nat`; signed quantities (timestamps in milliseconds, coordinate stacks
  that may step to -1) as `Int`; quantities produced by `/` on JS numbers as
  `Rat` (exact real-valued semantics of the arithmetic expressions).
* `Math.round(x)` (round half towards plus infinity) is `⌊x + 1/2⌋`.
* `a || b` on a JS number is `jsOrNat` (0 and `undefined` are falsy), on a
  JS string `jsOrStr` (the empty string is falsy).
* A JS `Map` keyed by strings is an association list `Smap`, `set`
  overwriting in place and `delete` removing the key.
* Wall-clock side effects (`Date.now`, timers) are passed in as explicit
  `now`/tick parameters; HTTP and database effects are modelled by explicit
  outcome values and state records.
-/

/-- `Math.round (a / b)` for integers `a` and positive `b`:
`⌊a/b + 1/2⌋ = ⌊(2a + b) / (2b)⌋`, using floor division. -/
def jsRoundDiv (a b : Int) : Int := Int.fdiv (2 * a + b) (2 * b)

/-- `Math.round (s / n)` for naturals (`Nat.div` is floor division). -/
def jsRoundNat (s n : Nat) : Nat := (2 * s + n) / (2 * n)

/-- `Math.round q` for a rational `q`: round half towards plus infinity. -/
def ratRound (q : ℚ) : ℤ := ⌊q + 1 / 2⌋

/-- `v || d` for an optional JS number `v`: `undefined` and `0` are falsy. -/
def jsOrNat (v : Option Nat) (d : Nat) : Nat :=
  match v with
  | none => d
  | some n => if n = 0 then d else n

/-- `v || d` for an optional JS rational. -/
def jsOrQ (v : Option ℚ) (d : ℚ) : ℚ :=
  match v with
  | none => d
  | some q => if q = 0 then d else q

/-- `v || null` for an optional JS string: the empty string is falsy. -/
def jsOrStr (v : Option String) : Option String :=
  match v with
  | none => none
  | some s => if s = "" then none else some s

/-- A JS `Map` with string keys, as an insertion-ordered association list. -/
abbrev Smap (α : Type) : Type := List (String × α)

/-- `map.get(k)`. -/
def Smap.get {α : Type} (m : Smap α) (k : String) : Option α :=
  (List.find? (fun p => p.1 = k) m).map (fun p => p.2)

/-- `map.set(k, v)`: overwrite in place if present, else append. -/
def Smap.set {α : Type} (m : Smap α) (k : String) (v : α) : Smap α :=
  if (List.any m (fun p => p.1 = k)) then
    List.map (fun p => if p.1 = k then (k, v) else p) m
  else
    m ++ [(k, v)]

/-- `map.delete(k)`. -/
def Smap.del {α : Type} (m : Smap α) (k : String) : Smap α :=
  List.filter (fun p => !(p.1 = k : Bool)) m

/-- `map.size`. -/
def Smap.size {α : Type} (m : Smap α) : Nat := List.length m

/-! ## Round-robin scheduler (round-robin.ts)

`config`, `currentIndex` and the interval timer are module-level state;
they are gathered into `RRState`.  A tick (`processNext`) is modelled as a
state transition that also reports which camera it analyzed (`none` when
the tick was a no-op).  The snapshot fetch, per-zone analysis and update
callback inside a tick do not touch the scheduler state, so they are not
part of this transition. -/

structure RRState where
  cameras : List String
  intervalMs : Nat
  enabled : Bool
  currentIndex : Nat
deriving Repr, DecidableEq

/-- `processNext()`: no-op when stopped or without cameras, else analyze
`cameras[currentIndex]` and advance the cursor modulo the list length. -/
def processNext (s : RRState) : RRState × Option String :=
  if s.enabled = false ∨ s.cameras = [] then (s, none)
  else
    ({ s with currentIndex := (s.currentIndex + 1) % s.cameras.length },
     some (s.cameras.getD s.currentIndex ""))

/-- `start(cameras, intervalMs)`: install the configuration, reset
`currentIndex = 0`, enable, and run one tick immediately (the interval
timer then repeats `processNext`). -/
def startRR (cameras : List String) (intervalMs : Nat) : RRState × Option String :=
  processNext { cameras := cameras, intervalMs := intervalMs, enabled := true, currentIndex := 0 }

/-- The scheduler state after `k` ticks from `s`. -/
def tickState (s : RRState) : Nat → RRState
  | 0 => s
  | k + 1 => tickState (processNext s).1 k

/-- The camera analyzed by tick number `k` (counting from 0) from `s`. -/
def visited (s : RRState) (k : Nat) : Option String :=
  (processNext (tickState s k)).2

/-! ## Zone store (database.ts) -/

/-- A polygon vertex / generic 2-D point with JS-number coordinates. -/
structure Pt where
  x : ℚ
  y : ℚ
deriving Repr, DecidableEq

/-- Input accepted by `createZone` (optional fields are `undefined` when
absent). -/
structure ZoneInput where
  name : String
  camera_id : Option String
  polygon : List Pt
  min_blob_area : Option Nat
  max_blob_area : Option Nat
  alarm_threshold : Option Nat
deriving Repr, DecidableEq

/-- A row of the `zones` table, as `getZone` returns it. -/
structure ZoneRec where
  id : String
  name : String
  camera_id : Option String
  polygon : List Pt
  min_blob_area : Nat
  max_blob_area : Nat
  alarm_threshold : Nat
  created_at : Int
  updated_at : Int
deriving Repr, DecidableEq

/-- `createZone(id, input)`: the row inserted (and returned via
`getZone`): `input.camera_id || null`, `input.min_blob_area || 500`,
`input.max_blob_area || 50000`, `input.alarm_threshold || 1`;
`created_at`/`updated_at` default to the current timestamp. -/
def createZone (id : String) (input : ZoneInput) (now : Int) : ZoneRec :=
  { id := id
    name := input.name
    camera_id := jsOrStr input.camera_id
    polygon := input.polygon
    min_blob_area := jsOrNat input.min_blob_area 500
    max_blob_area := jsOrNat input.max_blob_area 50000
    alarm_threshold := jsOrNat input.alarm_threshold 1
    created_at := now
    updated_at := now }

/-! ## Event logger and session state (database.ts) -/

/-- A value of the module-level `activeZoneSessions` map: entry time (ms
since epoch) and the count recorded at entry. -/
structure SessionInfo where
  entryTime : Int
  count : Nat
deriving Repr, DecidableEq

/-- `event_type` of a `parking_events` row. -/
inductive PEventType where
  | entry
  | exitZone
  | occupancyChange
deriving Repr, DecidableEq

/-- A `parking_events` row as `logParkingEvent` inserts and returns it.
ISO timestamp strings are modelled by their epoch-millisecond values. -/
structure ParkingEventRec where
  zone_id : String
  zone_name : String
  camera_id : String
  event_type : PEventType
  count_before : Nat
  count_after : Nat
  duration_seconds : Option Int
  entry_time : Option Int
  exit_time : Option Int
  timestamp : Int
deriving Repr, DecidableEq

/-- `logParkingEvent(zoneId, zoneName, cameraId, countBefore, countAfter)`
at wall-clock time `now` (ms): returns the recorded event (or `none` when
`countBefore == countAfter`) and the updated `activeZoneSessions` map.
`duration_seconds = Math.round((now - session.entryTime) / 1000)`. -/
def logParkingEvent (sessions : Smap SessionInfo) (zoneId zoneName cameraId : String)
    (countBefore countAfter : Nat) (now : Int) : Option ParkingEventRec × Smap SessionInfo :=
  if countBefore = 0 ∧ 0 < countAfter then
    (some { zone_id := zoneId, zone_name := zoneName, camera_id := cameraId
            event_type := .entry, count_before := countBefore, count_after := countAfter
            duration_seconds := none, entry_time := some now, exit_time := none
            timestamp := now },
     sessions.set zoneId { entryTime := now, count := countAfter })
  else if 0 < countBefore ∧ countAfter = 0 then
    match sessions.get zoneId with
    | some s =>
      (some { zone_id := zoneId, zone_name := zoneName, camera_id := cameraId
              event_type := .exitZone, count_before := countBefore, count_after := countAfter
              duration_seconds := some (jsRoundDiv (now - s.entryTime) 1000)
              entry_time := some s.entryTime, exit_time := some now
              timestamp := now },
       sessions.del zoneId)
    | none =>
      (some { zone_id := zoneId, zone_name := zoneName, camera_id := cameraId
              event_type := .exitZone, count_before := countBefore, count_after := countAfter
              duration_seconds := none, entry_time := none, exit_time := some now
              timestamp := now },
       sessions)
  else if countBefore ≠ countAfter then
    (some { zone_id := zoneId, zone_name := zoneName, camera_id := cameraId
            event_type := .occupancyChange, count_before := countBefore, count_after := countAfter
            duration_seconds := none, entry_time := none, exit_time := none
            timestamp := now },
     sessions)
  else
    (none, sessions)

/-! ## Occupancy writers (index.ts)

The effect sequence each writer performs on a single zone is modelled as a
trace of abstract actions, in program order.  The `/analyze` handler and
the `/analyze-stream` handler write the in-memory occupancy map, append an
`occupancy_log` row and broadcast, without consulting the previous count;
the scheduler's update callback reads the previous count, writes the map
and calls `logParkingEvent` when the count changed.  (The conditional
`parking_event` broadcast of the returned event is omitted from the trace;
it adds no occupancy write.) -/

inductive WriteAction where
  | setOccupancy (zoneId : String) (count : Nat)
  | logOccupancyRow (zoneId : String) (count : Nat)
  | logParkingEventCall (zoneId zoneName cameraId : String) (prevCount newCount : Nat)
  | broadcastOccupancyUpdate (zoneId zoneName : String) (count : Nat)
deriving Repr, DecidableEq

/-- Per-zone effect sequence of the `POST /analyze` handler. -/
def analyzeZoneWrite (zoneId zoneName : String) (count : Nat) : List WriteAction :=
  [WriteAction.setOccupancy zoneId count,
   WriteAction.logOccupancyRow zoneId count,
   WriteAction.broadcastOccupancyUpdate zoneId zoneName count]

/-- Per-zone effect sequence of the `POST /analyze-stream` handler. -/
def analyzeStreamZoneWrite (zoneId zoneName : String) (count : Nat) : List WriteAction :=
  [WriteAction.setOccupancy zoneId count,
   WriteAction.logOccupancyRow zoneId count,
   WriteAction.broadcastOccupancyUpdate zoneId zoneName count]

/-- Effect sequence of the scheduler's `setUpdateCallback` callback, given
the in-memory occupancy map (zone id to current count): capture
`prevCount = currentOccupancy.get(zone_id)?.count ?? 0`, set the entry,
then `logParkingEvent` exactly when the count changed. -/
def schedulerUpdateWrite (occ : Smap Nat) (zoneId zoneName cameraId : String)
    (count : Nat) : List WriteAction :=
  let prevCount := (occ.get zoneId).getD 0
  WriteAction.setOccupancy zoneId count ::
    ((if prevCount ≠ count then
        [WriteAction.logParkingEventCall zoneId zoneName cameraId prevCount count]
      else []) ++
     [WriteAction.broadcastOccupancyUpdate zoneId zoneName count])

/-! ## Image primitives (image-processor.ts)

Grayscale planes are lists of 8-bit values in row-major order with explicit
width and height; pixel `(x, y)` lives at index `y * width + x`.  Reads use
`getD _ 0`; every function below is only applied to buffers of length
`width * height`, matching the allocation the source performs. -/

/-- `computeDifference(current, background, threshold)`: 255 where
`Math.abs(current[i] - background[i]) > threshold`, else 0. -/
def computeDifference (current background : List Nat) (threshold : Nat) : List Nat :=
  (List.range current.length).map fun i =>
    if threshold < ((current.getD i 0 : Int) - (background.getD i 0 : Int)).natAbs
    then 255 else 0

/-- Indices of the 3x3 neighborhood of interior pixel `(x, y)` (caller
guarantees `1 ≤ x`, `1 ≤ y`). -/
def neighborhood9 (w x y : Nat) : List Nat :=
  [(y - 1) * w + (x - 1), (y - 1) * w + x, (y - 1) * w + (x + 1),
   y * w + (x - 1), y * w + x, y * w + (x + 1),
   (y + 1) * w + (x - 1), (y + 1) * w + x, (y + 1) * w + (x + 1)]

/-- Index `i` lies strictly inside the 1-pixel border of a `w × h` plane. -/
def interiorPix (w h i : Nat) : Prop :=
  1 ≤ i % w ∧ i % w + 1 < w ∧ 1 ≤ i / w ∧ i / w + 1 < h

instance (w h i : Nat) : Decidable (interiorPix w h i) := by
  unfold interiorPix; infer_instance

/-- One erosion pass of `morphologyClean`: an interior pixel is 255 only if
all nine neighbors are non-zero; the freshly allocated output leaves the
1-pixel border at 0. -/
def erodePass (img : List Nat) (w h : Nat) : List Nat :=
  List.ofFn (n := w * h) fun i =>
    if interiorPix w h i.val then
      if ∀ j ∈ neighborhood9 w (i.val % w) (i.val / w), img.getD j 0 ≠ 0 then 255 else 0
    else 0

/-- One dilation pass of `morphologyClean` as the code performs it: an
interior pixel is 255 if any of the nine neighbors is 255; the freshly
allocated output leaves the 1-pixel border at 0. -/
def dilatePass (img : List Nat) (w h : Nat) : List Nat :=
  List.ofFn (n := w * h) fun i =>
    if interiorPix w h i.val then
      if ∃ j ∈ neighborhood9 w (i.val % w) (i.val / w), img.getD j 0 = 255 then 255 else 0
    else 0

/-- The spec's dilation operator: identical to `dilatePass` on interior
pixels but leaving pixels within the 1-pixel border as they are. -/
def dilateAsIs (img : List Nat) (w h : Nat) : List Nat :=
  List.ofFn (n := w * h) fun i =>
    if interiorPix w h i.val then
      if ∃ j ∈ neighborhood9 w (i.val % w) (i.val / w), img.getD j 0 = 255 then 255 else 0
    else img.getD i.val 0

/-- `morphologyClean(data, width, height, iterations)`: `iterations`
erosion passes followed by `iterations` dilation passes. -/
def morphologyClean (data : List Nat) (w h iterations : Nat) : List Nat :=
  (fun b => dilatePass b w h)^[iterations] ((fun b => erodePass b w h)^[iterations] data)

/-- `updateBackground(currentFrame, existingBackground, alpha)` on decoded
grayscale planes: with no existing background the current frame is returned
unchanged; otherwise pixelwise `Math.round((1 - alpha) * bg[i] + alpha *
cur[i])`. -/
def updateBackground (cur : List ℤ) (bg : Option (List ℤ)) (alpha : ℚ) : List ℤ :=
  match bg with
  | none => cur
  | some b =>
    (List.range cur.length).map fun i =>
      ratRound ((1 - alpha) * (b.getD i 0 : ℚ) + alpha * (cur.getD i 0 : ℚ))

/-- A plane of length `w * h` whose 1-pixel border is 0. -/
def BorderZero (img : List Nat) (w h : Nat) : Prop :=
  img.length = w * h ∧ ∀ i, i < w * h → ¬interiorPix w h i → img.getD i 0 = 0

/-! ## Persistent rows and cascading delete (database.ts) -/

/-- A row of the `occupancy_log` table. -/
structure OccRow where
  zone_id : String
  count : Nat
  timestamp : Int
deriving Repr, DecidableEq

/-- The database tables the zone store owns, together with the module-level
in-memory session map (used by `getParkingStats` for `currentOccupied`). -/
structure DbState where
  zones : List ZoneRec
  occupancy_log : List OccRow
  parking_events : List ParkingEventRec
  sessions : Smap SessionInfo
deriving Repr, DecidableEq

/-- `deleteZone(id)`: delete the zone's `occupancy_log` rows, then its
`parking_events` rows, then the `zones` row; report whether a zone row was
removed (`result.changes > 0`). -/
def deleteZone (s : DbState) (id : String) : Bool × DbState :=
  let s1 := { s with occupancy_log := s.occupancy_log.filter fun r => !(r.zone_id = id : Bool) }
  let s2 := { s1 with parking_events := s1.parking_events.filter fun r => !(r.zone_id = id : Bool) }
  let removed := s2.zones.any fun z => (z.id = id : Bool)
  (removed, { s2 with zones := s2.zones.filter fun z => !(z.id = id : Bool) })

/-- A `byZone` group of `getParkingStats`. -/
structure ZoneStatsRow where
  zone_id : String
  zone_name : String
  entries : Nat
  exits : Nat
  avgDuration : Int
deriving Repr, DecidableEq

/-- The `getParkingStats` result. -/
structure StatsResult where
  totalEntries : Nat
  totalExits : Nat
  avgDurationSeconds : Int
  currentOccupied : Nat
  byZone : List ZoneStatsRow
deriving Repr, DecidableEq

/-- The `WHERE timestamp >= since` filter of the stats queries. -/
def eventsSince (evs : List ParkingEventRec) (since : Option Int) : List ParkingEventRec :=
  match since with
  | none => evs
  | some t => evs.filter fun e => (t ≤ e.timestamp : Bool)

/-- SQL `Math.round(AVG(col) || 0)` over the non-null values. -/
def avgRound (ds : List Int) : Int :=
  if ds.length = 0 then 0 else ratRound ((ds.sum : ℚ) / (ds.length : ℚ))

/-- `getParkingStats(since)`: totals and per-`(zone_id, zone_name)` groups
over the filtered `parking_events` rows, with `currentOccupied` taken from
the in-memory session map (`activeZoneSessions.size`).  Groups are listed
in first-encounter order (the source's `ORDER BY entries DESC` ordering is
not modelled; the group contents are). -/
def getParkingStats (s : DbState) (since : Option Int) : StatsResult :=
  let evs := eventsSince s.parking_events since
  { totalEntries := (evs.filter fun e => (e.event_type = PEventType.entry : Bool)).length
    totalExits := (evs.filter fun e => (e.event_type = PEventType.exitZone : Bool)).length
    avgDurationSeconds := avgRound (evs.filterMap fun e => e.duration_seconds)
    currentOccupied := s.sessions.size
    byZone := ((evs.map fun e => (e.zone_id, e.zone_name)).dedup).map fun p =>
      let grp := evs.filter fun e => (e.zone_id = p.1 ∧ e.zone_name = p.2 : Bool)
      { zone_id := p.1, zone_name := p.2
        entries := (grp.filter fun e => (e.event_type = PEventType.entry : Bool)).length
        exits := (grp.filter fun e => (e.event_type = PEventType.exitZone : Bool)).length
        avgDuration := avgRound (grp.filterMap fun e => e.duration_seconds) } }

/-! ## Connected components (`findBlobs`, image-processor.ts)

The binary plane is accessed as a total function `Nat → Nat` (the caller
passes `fun i => binaryData.getD i 0`), and the `Int32Array` of labels as a
total function `Nat → Nat` starting at the all-zero function.  The explicit
flood-fill stack holds `Int` coordinates, since the code pushes `x - 1` and
`y - 1` without clamping and bounds-checks on pop.  Termination: each pop
either shrinks the stack or labels one previously unlabeled foreground
pixel (the label is never 0, so a labeled pixel is never labeled again). -/

/-- Per-component statistics accumulated by one `floodFill` call. -/
structure FloodStats where
  area : Nat
  sumX : Nat
  sumY : Nat
  minX : Nat
  minY : Nat
  maxX : Nat
  maxY : Nat
deriving Repr, DecidableEq

/-- Write label `L` at index `idx` (the `labels[idx] = label` store). -/
def labelSet (labels : Nat → Nat) (idx L : Nat) : Nat → Nat :=
  fun j => if j = idx then L else labels j

/-- Number of unlabeled foreground pixels, the flood fill's potential. -/
def unlabeledCount (bin labels : Nat → Nat) (w h : Nat) : Nat :=
  ((Finset.range (w * h)).filter fun i => bin i ≠ 0 ∧ labels i = 0).card

/-- The `while (stack.length > 0)` loop of `floodFill(startX, startY,
label)`: pop `(x, y)`; skip it when out of bounds, background or already
labeled; otherwise label it `L`, fold it into the statistics and push its
four neighbors (the pop order of the JS array stack is preserved). -/
def floodLoop (bin : Nat → Nat) (w h L : Nat) (hL : L ≠ 0) :
    List (Int × Int) → (Nat → Nat) → FloodStats → (Nat → Nat) × FloodStats
  | [], labels, stats => (labels, stats)
  | (x, y) :: rest, labels, stats =>
    if hin : 0 ≤ x ∧ x < (w : Int) ∧ 0 ≤ y ∧ y < (h : Int) then
      if hsk : bin (y.toNat * w + x.toNat) = 0 ∨ labels (y.toNat * w + x.toNat) ≠ 0 then
        floodLoop bin w h L hL rest labels stats
      else
        floodLoop bin w h L hL
          ((x, y - 1) :: (x, y + 1) :: (x - 1, y) :: (x + 1, y) :: rest)
          (labelSet labels (y.toNat * w + x.toNat) L)
          { area := stats.area + 1
            sumX := stats.sumX + x.toNat, sumY := stats.sumY + y.toNat
            minX := min stats.minX x.toNat, minY := min stats.minY y.toNat
            maxX := max stats.maxX x.toNat, maxY := max stats.maxY y.toNat }
    else
      floodLoop bin w h L hL rest labels stats
termination_by stack labels _ => 5 * unlabeledCount bin labels w h + stack.length
decreasing_by
  · simp only [List.length_cons]
    omega
  · push_neg at hsk
    have hx : x.toNat < w := by omega
    have hy : y.toNat < h := by omega
    have hidx : y.toNat * w + x.toNat < w * h := by
      have h1 : y.toNat + 1 ≤ h := hy
      have h2 : (y.toNat + 1) * w ≤ h * w := Nat.mul_le_mul_right w h1
      have h3 : (y.toNat + 1) * w = y.toNat * w + w := by ring
      have h4 : h * w = w * h := Nat.mul_comm h w
      omega
    have hkey : unlabeledCount bin
        (labelSet labels (y.toNat * w + x.toNat) L) w h + 1 =
        unlabeledCount bin labels w h := by
      have hset : ((Finset.range (w * h)).filter fun i =>
            bin i ≠ 0 ∧ labelSet labels (y.toNat * w + x.toNat) L i = 0) =
          ((Finset.range (w * h)).filter fun i => bin i ≠ 0 ∧ labels i = 0).erase
            (y.toNat * w + x.toNat) := by
        ext j
        simp only [Finset.mem_filter, Finset.mem_erase, Finset.mem_range, labelSet]
        by_cases hj : j = y.toNat * w + x.toNat
        · subst hj
          simp [hL]
        · simp only [hj, if_false]
          tauto
      have hmem : y.toNat * w + x.toNat ∈
          ((Finset.range (w * h)).filter fun i => bin i ≠ 0 ∧ labels i = 0) := by
        simp only [Finset.mem_filter, Finset.mem_range]
        exact ⟨hidx, hsk.1, hsk.2⟩
      have hpos := Finset.card_pos.mpr ⟨_, hmem⟩
      unfold unlabeledCount
      rw [hset, Finset.card_erase_of_mem hmem]
      omega
    simp only [List.length_cons]
    omega
  · simp only [List.length_cons]
    omega

/-- An axis-aligned bounding box with `Nat` pixel coordinates. -/
structure BBoxN where
  x : Nat
  y : Nat
  width : Nat
  height : Nat
deriving Repr, DecidableEq

/-- A blob as `findBlobs` emits it. -/
structure Blob where
  id : Nat
  area : Nat
  centroid : Nat × Nat
  boundingBox : BBoxN
deriving Repr, DecidableEq

/-- The blob built from one flood fill's statistics: centroid is
`Math.round(sum / area)`, bounding box is inclusive on all sides. -/
def blobOfStats (L : Nat) (st : FloodStats) : Blob :=
  { id := L, area := st.area
    centroid := (jsRoundNat st.sumX st.area, jsRoundNat st.sumY st.area)
    boundingBox := { x := st.minX, y := st.minY
                     width := st.maxX - st.minX + 1, height := st.maxY - st.minY + 1 } }

/-- The flood fill the scan launches at index `i` with the fresh label
`cur + 1`: stack `[[x, y]]` and statistics initialised to the start
coordinates. -/
def scanFlood (bin : Nat → Nat) (w h cur i : Nat) (labels : Nat → Nat) :
    (Nat → Nat) × FloodStats :=
  floodLoop bin w h (cur + 1) (Nat.succ_ne_zero cur)
    [(((i % w : Nat) : Int), ((i / w : Nat) : Int))] labels
    { area := 0, sumX := 0, sumY := 0
      minX := i % w, minY := i / w, maxX := i % w, maxY := i / w }

/-- The row-major scan of `findBlobs`: at each index with value 255 and no
label yet, run a flood fill with a fresh label and emit the blob iff
`minArea ≤ area ≤ maxArea`. -/
def blobScan (bin : Nat → Nat) (w h minArea maxArea : Nat) :
    List Nat → (Nat → Nat) → Nat → List Blob → (Nat → Nat) × Nat × List Blob
  | [], labels, cur, acc => (labels, cur, acc)
  | i :: rest, labels, cur, acc =>
    if bin i = 255 ∧ labels i = 0 then
      let res := scanFlood bin w h cur i labels
      blobScan bin w h minArea maxArea rest res.1 (cur + 1)
        (if minArea ≤ res.2.area ∧ res.2.area ≤ maxArea
         then acc ++ [blobOfStats (cur + 1) res.2] else acc)
    else
      blobScan bin w h minArea maxArea rest labels cur acc

/-- `findBlobs` together with its final label array and label counter. -/
def findBlobsFull (binaryData : List Nat) (width height minArea maxArea : Nat) :
    (Nat → Nat) × Nat × List Blob :=
  blobScan (fun i => binaryData.getD i 0) width height minArea maxArea
    (List.range (width * height)) (fun _ => 0) 0 []

/-- `findBlobs(binaryData, width, height, minArea, maxArea)`. -/
def findBlobs (binaryData : List Nat) (width height minArea maxArea : Nat) : List Blob :=
  (findBlobsFull binaryData width height minArea maxArea).2.2

/-! ## Polygon masking and frame analysis (image-processor.ts)

Frames are modelled post-decode: `toGrayscale` (an external JPEG decode)
is taken as given and a frame is its grayscale plane with dimensions. -/

/-- A decoded grayscale frame. -/
structure GrayImage where
  data : List Nat
  width : Nat
  height : Nat
deriving Repr, DecidableEq

/-- `isPointInPolygon(point, polygon)`: even-odd ray casting.  Edge `i`
joins `polygon[i]` and `polygon[j]` with `j = i - 1` (wrapping to the last
vertex for `i = 0`); the edge toggles `inside` when `(yi > y) !== (yj > y)`
and `x < (xj - xi) * (y - yi) / (yj - yi) + xi` (division is exact rational
arithmetic; the guard makes `yj - yi ≠ 0` whenever it is evaluated). -/
def isPointInPolygon (p : Pt) (polygon : List Pt) : Bool :=
  let n := polygon.length
  (List.range n).foldl
    (fun inside i =>
      let a := polygon.getD i ⟨0, 0⟩
      let b := polygon.getD ((i + n - 1) % n) ⟨0, 0⟩
      if ((a.y > p.y) ≠ (b.y > p.y)) ∧ p.x < (b.x - a.x) * (p.y - a.y) / (b.y - a.y) + a.x
      then !inside else inside)
    false

/-- `createPolygonMask(polygon, width, height)`: 255 on pixels whose
integer coordinates lie inside the polygon, 0 elsewhere. -/
def createPolygonMask (polygon : List Pt) (w h : Nat) : List Nat :=
  List.ofFn (n := w * h) fun i =>
    if isPointInPolygon ⟨((i.val % w : Nat) : ℚ), ((i.val / w : Nat) : ℚ)⟩ polygon
    then 255 else 0

/-- `applyMask(data, mask)`: keep a pixel where the mask is 255, else 0. -/
def applyMask (data mask : List Nat) : List Nat :=
  (List.range data.length).map fun i =>
    if mask.getD i 0 = 255 then data.getD i 0 else 0

/-- The no-background fallback thresholding of `analyzeFrame`: 255 where
`Math.abs(pixel - avgBrightness) > threshold` with `avgBrightness` the mean
luma (exact rational mean). -/
def meanThresholdDiff (data : List Nat) (threshold : Nat) : List Nat :=
  let avg : ℚ := ((data.sum : Nat) : ℚ) / ((data.length : Nat) : ℚ)
  data.map fun v => if |((v : ℚ)) - avg| > (threshold : ℚ) then 255 else 0

/-- What `analyzeFrame` resolves to (the debug `mask` PNG is omitted). -/
structure AnalysisResultRec where
  blobs : List Blob
  count : Nat
deriving Repr, DecidableEq

/-- `analyzeFrame`'s options object; a field is `none` when absent. -/
structure AnalyzeOptions where
  threshold : Option Nat
  minBlobArea : Option Nat
  maxBlobArea : Option Nat
  morphIterations : Option Nat
deriving Repr, DecidableEq

/-- `analyzeFrame(currentFrame, backgroundFrame, polygon, options)`:
difference against the background (or against the mean luma when no
background is given), `morphologyClean`, polygon mask, `findBlobs`.
Mismatched background dimensions throw, modelled as `Except.error`. -/
def analyzeFrame (frame : GrayImage) (bg : Option GrayImage) (polygon : List Pt)
    (opts : AnalyzeOptions) : Except String AnalysisResultRec :=
  let threshold := opts.threshold.getD 30
  let minBlobArea := opts.minBlobArea.getD 500
  let maxBlobArea := opts.maxBlobArea.getD 50000
  let morphIterations := opts.morphIterations.getD 2
  let run : List Nat → AnalysisResultRec := fun diffData =>
    let cleaned := morphologyClean diffData frame.width frame.height morphIterations
    let mask := createPolygonMask polygon frame.width frame.height
    let masked := applyMask cleaned mask
    let blobs := findBlobs masked frame.width frame.height minBlobArea maxBlobArea
    { blobs := blobs, count := blobs.length }
  match bg with
  | some b =>
    if frame.width = b.width ∧ frame.height = b.height then
      Except.ok (run (computeDifference frame.data b.data threshold))
    else
      Except.error "Frame dimensions do not match background"
  | none => Except.ok (run (meanThresholdDiff frame.data threshold))

/-! ## Detection modes (detection-modes.ts) -/

/-- The process-wide detection mode. -/
inductive DetectionMode where
  | blob
  | hailoYolo
  | hailoSsd
deriving Repr, DecidableEq

/-- A bounding box with JS-number fields, as detections carry it. -/
structure BBoxQ where
  x : ℚ
  y : ℚ
  width : ℚ
  height : ℚ
deriving Repr, DecidableEq

/-- A normalized detection. -/
structure Detection where
  cls : String
  confidence : ℚ
  bbox : BBoxQ
deriving Repr, DecidableEq

/-- A `DetectionResult` (the wall-clock `inferenceTimeMs` is omitted). -/
structure DetectionResultRec where
  detections : List Detection
  count : Nat
  mode : DetectionMode
deriving Repr, DecidableEq

/-- Options accepted by `detectInFrame` and both detector variants. -/
structure DetOptions where
  minBlobArea : Option Nat
  maxBlobArea : Option Nat
  confidenceThreshold : Option ℚ
  classes : Option (List String)
deriving Repr, DecidableEq

/-- `detectBlob(frameBuffer, backgroundBuffer, polygon, options)`: run
`analyzeFrame` with `options.minBlobArea || 500` and
`options.maxBlobArea || 50000`, then wrap each blob as a detection with
class `"object"` and confidence 1. -/
def detectBlob (frame : GrayImage) (bg : Option GrayImage) (polygon : List Pt)
    (opts : DetOptions) : Except String DetectionResultRec :=
  (analyzeFrame frame bg polygon
      { threshold := none
        minBlobArea := some (jsOrNat opts.minBlobArea 500)
        maxBlobArea := some (jsOrNat opts.maxBlobArea 50000)
        morphIterations := none }).map fun a =>
    { detections := a.blobs.map fun b =>
        { cls := "object", confidence := 1
          bbox := { x := (b.boundingBox.x : ℚ), y := (b.boundingBox.y : ℚ)
                    width := (b.boundingBox.width : ℚ), height := (b.boundingBox.height : ℚ) } }
      count := a.count
      mode := DetectionMode.blob }

/-- A bounding box as the external detector may deliver it: either a
`[x, y, w, h]` array or an `{x, y, width, height}` object. -/
inductive RawBBox where
  | arr (x y width height : ℚ)
  | obj (box : BBoxQ)
deriving Repr, DecidableEq

/-- One raw detection of the external service's response. -/
structure RawDetection where
  label : Option String
  confidence : Option ℚ
  bbox : Option RawBBox
deriving Repr, DecidableEq

/-- The parsed body of a successful `POST /analyze/base64` response. -/
structure HailoPayload where
  detections : Option (List RawDetection)
  objects : Option (List RawDetection)
  inferenceMs : Option ℚ
  error : Option String
deriving Repr, DecidableEq

/-- The observable outcome of the external-detector call: a transport
failure, a non-OK HTTP response, or a parsed payload (which may itself
carry an `error` field). -/
inductive HailoOutcome where
  | transportError (msg : String)
  | httpError (status : Nat) (body : String)
  | ok (payload : HailoPayload)
deriving Repr, DecidableEq

/-- The model tag sent to the external detector. -/
inductive ModelType where
  | yolov5
  | ssd
deriving Repr, DecidableEq

/-- The external-detector call failed in some way: transport error, non-OK
HTTP status, or an `error` field in the parsed payload (each of these is a
`throw` landing in the `catch` of `detectHailo`). -/
def hailoFailed (o : HailoOutcome) : Prop :=
  match o with
  | .transportError _ => True
  | .httpError _ _ => True
  | .ok p => p.error.isSome

instance (o : HailoOutcome) : Decidable (hailoFailed o) := by
  unfold hailoFailed
  rcases o with _ | _ | p <;> infer_instance

/-- Normalize one raw detection: `det.label || 'object'`,
`det.confidence || 0`, and either bbox shape (`{0,0,0,0}` when absent). -/
def normalizeDetection (det : RawDetection) : Detection :=
  { cls := (jsOrStr det.label).getD "object"
    confidence := jsOrQ det.confidence 0
    bbox :=
      match det.bbox with
      | none => { x := 0, y := 0, width := 0, height := 0 }
      | some (.arr a b c d) => { x := a, y := b, width := c, height := d }
      | some (.obj bx) => bx }

/-- `detectHailo(frameBuffer, polygon, modelType, options)` given the
outcome of the HTTP call: on success normalize `detections || objects`,
then keep detections whose bbox center is inside the polygon, then apply
the class allow-list (when non-empty), then the confidence threshold
(`options.confidenceThreshold || 0.5`); on any failure fall back to
`detectBlob` with a null background and `{minBlobArea: 500, maxBlobArea:
50000}`. -/
def detectHailo (frame : GrayImage) (polygon : List Pt) (modelType : ModelType)
    (opts : DetOptions) (outcome : HailoOutcome) : Except String DetectionResultRec :=
  let fallback := detectBlob frame none polygon
    { minBlobArea := some 500, maxBlobArea := some 50000
      confidenceThreshold := none, classes := none }
  match outcome with
  | .transportError _ => fallback
  | .httpError _ _ => fallback
  | .ok p =>
    if p.error.isSome then fallback
    else
      let raw := p.detections.getD (p.objects.getD [])
      let dets := raw.map normalizeDetection
      let polyFiltered := dets.filter fun d =>
        isPointInPolygon ⟨d.bbox.x + d.bbox.width / 2, d.bbox.y + d.bbox.height / 2⟩ polygon
      let classFiltered :=
        match opts.classes with
        | some cs => if cs.length ≠ 0 then
                       polyFiltered.filter (fun (d : Detection) => cs.contains d.cls)
                     else polyFiltered
        | none => polyFiltered
      let confFiltered := classFiltered.filter fun (d : Detection) =>
        decide (jsOrQ opts.confidenceThreshold (1 / 2) ≤ d.confidence)
      Except.ok
        { detections := confFiltered, count := confFiltered.length
          mode := match modelType with
                  | .yolov5 => DetectionMode.hailoYolo
                  | .ssd => DetectionMode.hailoSsd }

/-- 4-adjacency of pixel indices on a `w`-wide grid: same row and columns
one apart, or same column and rows one apart. -/
def adjacent (w i j : Nat) : Prop :=
  (i / w = j / w ∧ (j = i + 1 ∨ i = j + 1)) ∨
  (i % w = j % w ∧ (j = i + w ∨ i = j + w))

/-- The set of pixels carrying label `L`. -/
def labelClass (w h : Nat) (labels : Nat → Nat) (L : Nat) : Finset Nat :=
  (Finset.range (w * h)).filter fun i => labels i = L

/-- The statistics accumulated so far describe the set of pixels labeled
`L`, relative to the start pixel `(s0x, s0y)`. -/
structure StatsOK (w h L s0x s0y : Nat) (labels : Nat → Nat) (st : FloodStats) : Prop where
  area_eq : st.area = (labelClass w h labels L).card
  sumX_eq : st.sumX = ∑ i ∈ labelClass w h labels L, i % w
  sumY_eq : st.sumY = ∑ i ∈ labelClass w h labels L, i / w
  minX_mem : st.minX = s0x ∨ ∃ i ∈ labelClass w h labels L, i % w = st.minX
  minX_le_start : st.minX ≤ s0x
  minX_le : ∀ i ∈ labelClass w h labels L, st.minX ≤ i % w
  minY_mem : st.minY = s0y ∨ ∃ i ∈ labelClass w h labels L, i / w = st.minY
  minY_le_start : st.minY ≤ s0y
  minY_le : ∀ i ∈ labelClass w h labels L, st.minY ≤ i / w
  maxX_mem : st.maxX = s0x ∨ ∃ i ∈ labelClass w h labels L, i % w = st.maxX
  maxX_ge_start : s0x ≤ st.maxX
  maxX_ge : ∀ i ∈ labelClass w h labels L, i % w ≤ st.maxX
  maxY_mem : st.maxY = s0y ∨ ∃ i ∈ labelClass w h labels L, i / w = st.maxY
  maxY_ge_start : s0y ≤ st.maxY
  maxY_ge : ∀ i ∈ labelClass w h labels L, i / w ≤ st.maxY

/-- Reachability inside a pixel set `M` by 4-adjacent steps. -/
inductive ReachIn (w : Nat) (M : Finset Nat) : Nat → Nat → Prop where
  | refl (i : Nat) (hi : i ∈ M) : ReachIn w M i i
  | step (i j k : Nat) (hij : ReachIn w M i j) (hk : k ∈ M) (hjk : adjacent w j k) :
      ReachIn w M i k

/-- What `findBlobs` guarantees for one emitted blob, relative to the final
label array: its pixel class is a non-empty, 4-connected set of foreground
pixels, and area, centroid and bounding box are the aggregate, rounded mean
and inclusive min/max box of that class. -/
structure BlobOK (bin : Nat → Nat) (w h : Nat) (labels : Nat → Nat) (b : Blob) : Prop where
  nonempty : (labelClass w h labels b.id).Nonempty
  foreground : ∀ i ∈ labelClass w h labels b.id, bin i ≠ 0
  connected : ∃ r ∈ labelClass w h labels b.id, ∀ j ∈ labelClass w h labels b.id,
      ReachIn w (labelClass w h labels b.id) r j
  area_eq : b.area = (labelClass w h labels b.id).card
  centroid_x : b.centroid.1 = jsRoundNat (∑ i ∈ labelClass w h labels b.id, i % w)
      (labelClass w h labels b.id).card
  centroid_y : b.centroid.2 = jsRoundNat (∑ i ∈ labelClass w h labels b.id, i / w)
      (labelClass w h labels b.id).card
  bbox_x_mem : ∃ i ∈ labelClass w h labels b.id, i % w = b.boundingBox.x
  bbox_x_le : ∀ i ∈ labelClass w h labels b.id, b.boundingBox.x ≤ i % w
  bbox_y_mem : ∃ i ∈ labelClass w h labels b.id, i / w = b.boundingBox.y
  bbox_y_le : ∀ i ∈ labelClass w h labels b.id, b.boundingBox.y ≤ i / w
  bbox_width : ∃ mx, (∃ i ∈ labelClass w h labels b.id, i % w = mx) ∧
      (∀ i ∈ labelClass w h labels b.id, i % w ≤ mx) ∧
      b.boundingBox.width = mx - b.boundingBox.x + 1
  bbox_height : ∃ my, (∃ i ∈ labelClass w h labels b.id, i / w = my) ∧
      (∀ i ∈ labelClass w h labels b.id, i / w ≤ my) ∧
      b.boundingBox.height = my - b.boundingBox.y + 1

/-- The invariant the row-major scan maintains: label values stay below the
counter, emitted blobs carry increasing used ids, satisfy `BlobOK` and the
area gate, a used label is emitted iff its class size passes the gate,
labeled adjacent foreground pixels agree, and every unprocessed foreground
pixel is labeled or still to do. -/
structure ScanInv (bin : Nat → Nat) (w h minA maxA : Nat) (todo : List Nat)
    (labels : Nat → Nat) (cur : Nat) (acc : List Blob) : Prop where
  bound : ∀ j, labels j ≤ cur
  ids : ∀ b ∈ acc, 1 ≤ b.id ∧ b.id ≤ cur
  sorted : List.Chain' (fun a b => a.id < b.id) acc
  ok : ∀ b ∈ acc, BlobOK bin w h labels b
  gate : ∀ b ∈ acc, minA ≤ b.area ∧ b.area ≤ maxA
  emit_iff : ∀ Lb, 1 ≤ Lb → Lb ≤ cur →
      (labelClass w h labels Lb).Nonempty ∧
      ((∃ b ∈ acc, b.id = Lb) ↔
        (minA ≤ (labelClass w h labels Lb).card ∧ (labelClass w h labels Lb).card ≤ maxA))
  same : ∀ a k, a < w * h → k < w * h → adjacent w a k → bin a ≠ 0 → bin k ≠ 0 →
      labels a ≠ 0 → labels k = labels a
  covered : ∀ a, a < w * h → bin a = 255 → (labels a ≠ 0 ∨ a ∈ todo)

/-! # Theorems -/

/-! ## Scheduler lemmas -/

/-- `processNext` on a running state with a non-empty camera list. -/
theorem processNext_running (C : List String) (i n : Nat) (hC : C ≠ []) :
    processNext ⟨C, i, true, n⟩ =
      (⟨C, i, true, (n + 1) % C.length⟩, some (C.getD n "")) := by
  simp [processNext, hC]

theorem tickState_running (C : List String) (i : Nat) (hC : C ≠ []) :
    ∀ k n, tickState ⟨C, i, true, n % C.length⟩ k = ⟨C, i, true, (n + k) % C.length⟩ := by
  intro k
  induction k with
  | zero => intro n; simp [tickState]
  | succ k ih =>
    intro n
    have h1 : (tickState ⟨C, i, true, n % C.length⟩ (k + 1)) =
        tickState ⟨C, i, true, (n + 1) % C.length⟩ k := by
      have := processNext_running C i (n % C.length) hC
      simp [tickState, this, Nat.mod_add_mod]
    rw [h1, ih (n + 1)]
    have : n + 1 + k = n + (k + 1) := by omega
    rw [this]

/-- Claim C3: `start(cameras, interval_ms)` resets the cursor to 0 and
immediately performs one tick; for a non-empty camera list `C`, tick `k`
(counting from 0) analyzes `cameras[k mod |C|]` and advances the cursor to
`(k + 1) mod |C|`; a tick with an empty camera list or with the scheduler
stopped is a no-op. -/
theorem roundRobin_cursor_spec (C : List String) (i k : Nat) (hC : C ≠ []) :
    startRR C i = processNext ⟨C, i, true, 0⟩ ∧
    startRR C i = (⟨C, i, true, 1 % C.length⟩, some (C.getD 0 "")) ∧
    visited ⟨C, i, true, 0⟩ k = some (C.getD (k % C.length) "") ∧
    tickState ⟨C, i, true, 0⟩ (k + 1) = ⟨C, i, true, (k + 1) % C.length⟩ ∧
    (∀ s : RRState, s.enabled = false ∨ s.cameras = [] → processNext s = (s, none)) := by
  have hzero : (0 : Nat) = 0 % C.length := by simp
  have htick : ∀ m, tickState ⟨C, i, true, 0⟩ m = ⟨C, i, true, m % C.length⟩ := by
    intro m
    have := tickState_running C i hC m 0
    rw [← hzero] at this
    simpa using this
  refine ⟨rfl, ?_, ?_, ?_, ?_⟩
  · rw [startRR, processNext_running C i 0 hC]
  · rw [visited, htick k, processNext_running C i (k % C.length) hC]
  · exact htick (k + 1)
  · intro s hs
    rcases hs with h | h
    · simp [processNext, h]
    · simp [processNext, h]

/-- Witness for C3 at a concrete input: cameras `["a","b","c"]`, 7 ticks
after start visit `a,b,c,a,b,c,a`, so tick 7 visits `"b"` and the cursor
then stands at `8 mod 3 = 2`. -/
theorem roundRobin_cursor_spec_witness :
    (["a", "b", "c"] : List String) ≠ [] ∧
    visited ⟨["a", "b", "c"], 1000, true, 0⟩ 7 = some "b" ∧
    (tickState ⟨["a", "b", "c"], 1000, true, 0⟩ 8).currentIndex = 2 := by
  have h := roundRobin_cursor_spec ["a", "b", "c"] 1000 7 (by decide)
  refine ⟨by decide, ?_, ?_⟩
  · simpa using h.2.2.1
  · rw [h.2.2.2.1]; decide

/-- `a || d` is never 0 when the default `d` is not 0. -/
theorem jsOrNat_ne_zero (v : Option Nat) (d : Nat) (hd : d ≠ 0) : jsOrNat v d ≠ 0 := by
  rcases v with _ | n
  · exact hd
  · by_cases h : n = 0 <;> simp [jsOrNat, h, hd]

/-- Claim C10: `createZone` stores the default whenever the supplied
`min_blob_area`, `max_blob_area` or `alarm_threshold` is 0 or absent
(JS `||` treats 0 as falsy), so no freshly created zone has a zero alarm
threshold or a zero area bound. -/
theorem createZone_zero_gets_defaults (id : String) (input : ZoneInput) (now : Int) :
    (input.alarm_threshold = some 0 → (createZone id input now).alarm_threshold = 1) ∧
    (input.min_blob_area = some 0 → (createZone id input now).min_blob_area = 500) ∧
    (input.max_blob_area = some 0 → (createZone id input now).max_blob_area = 50000) ∧
    (input.alarm_threshold = none → (createZone id input now).alarm_threshold = 1) ∧
    (input.min_blob_area = none → (createZone id input now).min_blob_area = 500) ∧
    (input.max_blob_area = none → (createZone id input now).max_blob_area = 50000) ∧
    (createZone id input now).alarm_threshold ≠ 0 ∧
    (createZone id input now).min_blob_area ≠ 0 ∧
    (createZone id input now).max_blob_area ≠ 0 := by
  refine ⟨?_, ?_, ?_, ?_, ?_, ?_, ?_, ?_, ?_⟩ <;>
    first
      | (intro h; simp [createZone, h, jsOrNat])
      | exact jsOrNat_ne_zero _ _ (by decide)

/-- Claim C1: the event-logger state machine.  With `prev = 0, new > 0` an
entry event is recorded and a session `(entry_time = now, count = new)` is
opened; with `prev > 0, new = 0` an exit event is recorded whose duration
(in rounded seconds) and entry time come from the session when one exists
(the session is then closed) and whose duration is null otherwise; with
`prev ≠ new` otherwise an occupancy_change event with null duration and no
session mutation is recorded; with `prev = new` no event is recorded.  In
every recorded event `duration_seconds` is non-null iff the kind is exit
and a session existed. -/
theorem logParkingEvent_state_machine (sessions : Smap SessionInfo)
    (zid zname cid : String) (prev next : Nat) (now : Int) :
    (prev = 0 → 0 < next →
      (logParkingEvent sessions zid zname cid prev next now).1 =
        some { zone_id := zid, zone_name := zname, camera_id := cid
               event_type := .entry, count_before := prev, count_after := next
               duration_seconds := none, entry_time := some now, exit_time := none
               timestamp := now } ∧
      (logParkingEvent sessions zid zname cid prev next now).2 =
        sessions.set zid { entryTime := now, count := next }) ∧
    (0 < prev → next = 0 →
      ∃ e, (logParkingEvent sessions zid zname cid prev next now).1 = some e ∧
        e.event_type = .exitZone ∧ e.exit_time = some now ∧
        e.count_before = prev ∧ e.count_after = next ∧
        (∀ s, sessions.get zid = some s →
          e.duration_seconds = some (jsRoundDiv (now - s.entryTime) 1000) ∧
          e.entry_time = some s.entryTime ∧
          (logParkingEvent sessions zid zname cid prev next now).2 = sessions.del zid) ∧
        (sessions.get zid = none →
          e.duration_seconds = none ∧ e.entry_time = none ∧
          (logParkingEvent sessions zid zname cid prev next now).2 = sessions)) ∧
    (prev ≠ 0 → next ≠ 0 → prev ≠ next →
      ∃ e, (logParkingEvent sessions zid zname cid prev next now).1 = some e ∧
        e.event_type = .occupancyChange ∧ e.duration_seconds = none ∧
        e.count_before = prev ∧ e.count_after = next ∧
        (logParkingEvent sessions zid zname cid prev next now).2 = sessions) ∧
    (prev = next →
      (logParkingEvent sessions zid zname cid prev next now).1 = none ∧
      (logParkingEvent sessions zid zname cid prev next now).2 = sessions) ∧
    (∀ e, (logParkingEvent sessions zid zname cid prev next now).1 = some e →
      (e.duration_seconds ≠ none ↔
        (e.event_type = .exitZone ∧ sessions.get zid ≠ none))) := by
  refine ⟨?_, ?_, ?_, ?_, ?_⟩
  · intro h0 hpos
    simp [logParkingEvent, h0, hpos]
  · intro hpos h0
    have hne : ¬(prev = 0 ∧ 0 < next) := by omega
    rcases hget : sessions.get zid with _ | s
    · refine ⟨{ zone_id := zid, zone_name := zname, camera_id := cid
                event_type := .exitZone, count_before := prev, count_after := next
                duration_seconds := none, entry_time := none, exit_time := some now
                timestamp := now }, ?_, rfl, rfl, rfl, rfl, ?_, ?_⟩
      · simp [logParkingEvent, hne, hpos, h0, hget]
      · intro s hs; exact absurd hs (by simp)
      · intro _; exact ⟨rfl, rfl, by simp [logParkingEvent, hne, hpos, h0, hget]⟩
    · refine ⟨{ zone_id := zid, zone_name := zname, camera_id := cid
                event_type := .exitZone, count_before := prev, count_after := next
                duration_seconds := some (jsRoundDiv (now - s.entryTime) 1000)
                entry_time := some s.entryTime, exit_time := some now
                timestamp := now }, ?_, rfl, rfl, rfl, rfl, ?_, ?_⟩
      · simp [logParkingEvent, hne, hpos, h0, hget]
      · intro s' hs'
        have hss : s = s' := by injection hs'
        subst hss
        exact ⟨rfl, rfl, by simp [logParkingEvent, hne, hpos, h0, hget]⟩
      · intro h; exact absurd h (by simp)
  · intro h1 h2 h3
    have hne : ¬(prev = 0 ∧ 0 < next) := by omega
    have hne2 : ¬(0 < prev ∧ next = 0) := by omega
    refine ⟨{ zone_id := zid, zone_name := zname, camera_id := cid
              event_type := .occupancyChange, count_before := prev, count_after := next
              duration_seconds := none, entry_time := none, exit_time := none
              timestamp := now }, ?_, rfl, rfl, rfl, rfl, ?_⟩
    · simp [logParkingEvent, hne, hne2, h3]
    · simp [logParkingEvent, hne, hne2, h3]
  · intro heq
    subst heq
    have hA : ¬(prev = 0 ∧ 0 < prev) := by omega
    have hB : ¬(0 < prev ∧ prev = 0) := by omega
    constructor <;> simp [logParkingEvent, hA, hB]
  · intro e he
    by_cases h1 : prev = 0 ∧ 0 < next
    · simp only [logParkingEvent, if_pos h1] at he
      injection he with he
      subst he
      simp
    · by_cases h2 : 0 < prev ∧ next = 0
      · rcases hget : sessions.get zid with _ | s
        · simp only [logParkingEvent, if_neg h1, if_pos h2, hget] at he
          injection he with he
          subst he
          simp [hget]
        · simp only [logParkingEvent, if_neg h1, if_pos h2, hget] at he
          injection he with he
          subst he
          simp [hget]
      · by_cases h3 : prev ≠ next
        · simp only [logParkingEvent, if_neg h1, if_neg h2, if_pos h3] at he
          injection he with he
          subst he
          simp
        · simp only [logParkingEvent, if_neg h1, if_neg h2, if_neg h3] at he
          exact absurd he (by simp)

/-- Counterexample to claim C2 as stated: the `POST /analyze` handler's
write for a concrete zone updates the occupancy entry but performs no
event-logger call at all (and the `/analyze-stream` handler behaves the
same), so not every occupancy write calls the event logger. -/
theorem analyze_write_skips_event_logger :
    WriteAction.setOccupancy "z1" 2 ∈ analyzeZoneWrite "z1" "Zone 1" 2 ∧
    (∀ a b c p n, WriteAction.logParkingEventCall a b c p n ∉ analyzeZoneWrite "z1" "Zone 1" 2) ∧
    (∀ a b c p n, WriteAction.logParkingEventCall a b c p n ∉ analyzeStreamZoneWrite "z1" "Zone 1" 2) := by
  refine ⟨by simp [analyzeZoneWrite], ?_, ?_⟩ <;>
    · intro a b c p n h
      simp [analyzeZoneWrite, analyzeStreamZoneWrite] at h

/-- Claim C2, amended: only the scheduler's update callback logs parking
events.  It captures `prev_count` as the stored count (0 when absent),
updates the entry first, and calls the event logger with
`(zone_id, zone_name, camera_id, prev_count, new_count)` exactly when
`prev_count ≠ new_count`; the `/analyze` and `/analyze-stream` handlers
update the occupancy entry and log history without ever calling the event
logger. -/
theorem occupancy_writers_event_logging (occ : Smap Nat)
    (zid zname cid : String) (count : Nat) :
    ((schedulerUpdateWrite occ zid zname cid count).head? =
      some (WriteAction.setOccupancy zid count)) ∧
    ((occ.get zid).getD 0 ≠ count →
      schedulerUpdateWrite occ zid zname cid count =
        [WriteAction.setOccupancy zid count,
         WriteAction.logParkingEventCall zid zname cid ((occ.get zid).getD 0) count,
         WriteAction.broadcastOccupancyUpdate zid zname count]) ∧
    ((occ.get zid).getD 0 = count →
      schedulerUpdateWrite occ zid zname cid count =
        [WriteAction.setOccupancy zid count,
         WriteAction.broadcastOccupancyUpdate zid zname count]) ∧
    (∀ a b c p n,
      WriteAction.logParkingEventCall a b c p n ∈ schedulerUpdateWrite occ zid zname cid count ↔
        (a = zid ∧ b = zname ∧ c = cid ∧ p = (occ.get zid).getD 0 ∧ n = count ∧
         (occ.get zid).getD 0 ≠ count)) ∧
    (∀ zi zn k a b c p n,
      WriteAction.logParkingEventCall a b c p n ∉ analyzeZoneWrite zi zn k ∧
      WriteAction.logParkingEventCall a b c p n ∉ analyzeStreamZoneWrite zi zn k) := by
  refine ⟨?_, ?_, ?_, ?_, ?_⟩
  · by_cases h : (occ.get zid).getD 0 = count <;> simp [schedulerUpdateWrite, h]
  · intro h; simp [schedulerUpdateWrite, h]
  · intro h; simp [schedulerUpdateWrite, h]
  · intro a b c p n
    by_cases h : (occ.get zid).getD 0 = count
    · simp [schedulerUpdateWrite, h]
    · simp only [schedulerUpdateWrite, h]
      constructor
      · intro hm
        simp at hm
        tauto
      · rintro ⟨h1, h2, h3, h4, h5, _⟩
        subst h1; subst h2; subst h3; subst h4; subst h5
        simp [h]
  · intro zi zn k a b c p n
    constructor <;> · intro h; simp [analyzeZoneWrite, analyzeStreamZoneWrite] at h

/-- `Math.round` of an integer is itself. -/
theorem ratRound_intCast (z : ℤ) : ratRound (z : ℚ) = z := by
  rw [ratRound, Int.floor_eq_iff]
  constructor
  · linarith
  · linarith

/-- Claim C7: the running-mean background update computes pixelwise
`round((1 - alpha) * bg_i + alpha * cur_i)`; it is a fixed point under an
identical current frame for every background and every alpha (in
particular the default `alpha = 0.1`); and with no existing background the
current frame becomes the initial background without averaging. -/
theorem updateBackground_running_mean (bg cur : List ℤ) (alpha : ℚ) (i : Nat) :
    (i < cur.length →
      (updateBackground cur (some bg) alpha).getD i 0 =
        ratRound ((1 - alpha) * (bg.getD i 0 : ℚ) + alpha * (cur.getD i 0 : ℚ))) ∧
    updateBackground bg (some bg) alpha = bg ∧
    updateBackground cur none alpha = cur := by
  refine ⟨?_, ?_, rfl⟩
  · intro hi
    show ((List.range cur.length).map fun i =>
        ratRound ((1 - alpha) * (bg.getD i 0 : ℚ) + alpha * (cur.getD i 0 : ℚ))).getD i 0 = _
    rw [List.getD_eq_getElem _ _ (by simpa using hi)]
    simp
  · apply List.ext_getElem
    · simp [updateBackground]
    · intro j h1 h2
      show ((List.range bg.length).map fun i =>
        ratRound ((1 - alpha) * (bg.getD i 0 : ℚ) + alpha * (bg.getD i 0 : ℚ)))[j] = _
      simp only [List.getElem_map, List.getElem_range]
      have hj : j < bg.length := h2
      rw [List.getD_eq_getElem _ _ hj]
      have : (1 - alpha) * (bg[j] : ℚ) + alpha * (bg[j] : ℚ) = (bg[j] : ℚ) := by ring
      rw [this, ratRound_intCast]

theorem erodePass_borderZero (img : List Nat) (w h : Nat) :
    BorderZero (erodePass img w h) w h := by
  constructor
  · simp [erodePass]
  · intro i hi hint
    rw [erodePass, List.getD_eq_getElem _ _ (by simpa using hi)]
    simp [hint]

theorem dilatePass_borderZero (img : List Nat) (w h : Nat) :
    BorderZero (dilatePass img w h) w h := by
  constructor
  · simp [dilatePass]
  · intro i hi hint
    rw [dilatePass, List.getD_eq_getElem _ _ (by simpa using hi)]
    simp [hint]

theorem dilateAsIs_of_borderZero (img : List Nat) (w h : Nat)
    (hb : BorderZero img w h) : dilateAsIs img w h = dilatePass img w h := by
  apply List.ext_getElem
  · simp [dilateAsIs, dilatePass]
  · intro i h1 h2
    have hi : i < w * h := by simpa [dilateAsIs] using h1
    simp only [dilateAsIs, dilatePass, List.getElem_ofFn]
    by_cases hint : interiorPix w h i
    · simp [hint]
    · simp only [hint, if_false]
      exact hb.2 i hi hint

theorem dilateAsIs_borderZero (img : List Nat) (w h : Nat)
    (hb : BorderZero img w h) : BorderZero (dilateAsIs img w h) w h := by
  rw [dilateAsIs_of_borderZero img w h hb]
  exact dilatePass_borderZero img w h

theorem dilate_iter_eq_of_borderZero (w h : Nat) :
    ∀ (m : Nat) (x : List Nat), BorderZero x w h →
      (fun b => dilatePass b w h)^[m] x = (fun b => dilateAsIs b w h)^[m] x := by
  intro m
  induction m with
  | zero => intro x _; rfl
  | succ m ih =>
    intro x hx
    rw [Function.iterate_succ_apply, Function.iterate_succ_apply]
    show (fun b => dilatePass b w h)^[m] (dilatePass x w h) =
      (fun b => dilateAsIs b w h)^[m] (dilateAsIs x w h)
    rw [dilateAsIs_of_borderZero x w h hx]
    exact ih (dilatePass x w h) (dilatePass_borderZero x w h)

/-- Claim C4: for every plane and every iteration count `n`, the
morphology-clean operation equals the composition of `n` erosion passes
followed by `n` dilation passes where erosion zeroes the 1-pixel border
and dilation leaves the 1-pixel border as-is — exactly as the spec
describes the `erode(n)` and `dilate(n)` operators. -/
theorem morphologyClean_eq_spec_composition (data : List Nat) (w h n : Nat) :
    morphologyClean data w h n =
      (fun b => dilateAsIs b w h)^[n] ((fun b => erodePass b w h)^[n] data) := by
  rcases n with _ | m
  · rfl
  · rw [morphologyClean]
    apply dilate_iter_eq_of_borderZero
    rw [Function.iterate_succ_apply']
    exact erodePass_borderZero _ w h

theorem eventsSince_subset (evs : List ParkingEventRec) (since : Option Int)
    (e : ParkingEventRec) (he : e ∈ eventsSince evs since) : e ∈ evs := by
  rcases since with _ | t
  · exact he
  · exact List.mem_of_mem_filter he

/-- Counterexample to claim C8 as stated: delete a zone that has an open
in-memory session.  The cascade removes its zone, event and occupancy rows
and returns true, yet a stats query issued after the delete still counts
the deleted zone: `currentOccupied` comes from the in-memory session map,
which `deleteZone` does not touch. -/
theorem deleteZone_stats_counterexample :
    (deleteZone
        { zones := [{ id := "z1", name := "Bay A", camera_id := some "cam1",
                      polygon := [⟨0, 0⟩, ⟨4, 0⟩, ⟨4, 4⟩], min_blob_area := 500,
                      max_blob_area := 50000, alarm_threshold := 1,
                      created_at := 0, updated_at := 0 }],
          occupancy_log := [{ zone_id := "z1", count := 2, timestamp := 5 }],
          parking_events := [{ zone_id := "z1", zone_name := "Bay A", camera_id := "cam1",
                               event_type := .entry, count_before := 0, count_after := 2,
                               duration_seconds := none, entry_time := some 5,
                               exit_time := none, timestamp := 5 }],
          sessions := [("z1", { entryTime := 5, count := 2 })] } "z1").1 = true ∧
    (getParkingStats
        (deleteZone
          { zones := [{ id := "z1", name := "Bay A", camera_id := some "cam1",
                        polygon := [⟨0, 0⟩, ⟨4, 0⟩, ⟨4, 4⟩], min_blob_area := 500,
                        max_blob_area := 50000, alarm_threshold := 1,
                        created_at := 0, updated_at := 0 }],
            occupancy_log := [{ zone_id := "z1", count := 2, timestamp := 5 }],
            parking_events := [{ zone_id := "z1", zone_name := "Bay A", camera_id := "cam1",
                                 event_type := .entry, count_before := 0, count_after := 2,
                                 duration_seconds := none, entry_time := some 5,
                                 exit_time := none, timestamp := 5 }],
            sessions := [("z1", { entryTime := 5, count := 2 })] } "z1").2 none).currentOccupied
      = 1 ∧
    ((deleteZone
        { zones := [{ id := "z1", name := "Bay A", camera_id := some "cam1",
                      polygon := [⟨0, 0⟩, ⟨4, 0⟩, ⟨4, 4⟩], min_blob_area := 500,
                      max_blob_area := 50000, alarm_threshold := 1,
                      created_at := 0, updated_at := 0 }],
          occupancy_log := [{ zone_id := "z1", count := 2, timestamp := 5 }],
          parking_events := [{ zone_id := "z1", zone_name := "Bay A", camera_id := "cam1",
                               event_type := .entry, count_before := 0, count_after := 2,
                               duration_seconds := none, entry_time := some 5,
                               exit_time := none, timestamp := 5 }],
          sessions := [("z1", { entryTime := 5, count := 2 })] } "z1").2).sessions.get "z1"
      = some { entryTime := 5, count := 2 } := by
  refine ⟨rfl, rfl, rfl⟩

/-- Claim C8, amended: `delete(id)` removes the zone's event rows and
occupancy rows before the zone row, returns true iff a zone row was
removed, and every later stats query's event-derived aggregates exclude
the zone (its `byZone` groups are gone); but `deleteZone` leaves the
in-memory session map untouched, so `currentOccupied` still counts a
deleted zone with an open session. -/
theorem deleteZone_cascade (s : DbState) (id : String) :
    ((deleteZone s id).1 = true ↔ ∃ z ∈ s.zones, z.id = id) ∧
    (∀ e ∈ (deleteZone s id).2.parking_events, e.zone_id ≠ id) ∧
    (∀ r ∈ (deleteZone s id).2.occupancy_log, r.zone_id ≠ id) ∧
    (∀ z ∈ (deleteZone s id).2.zones, z.id ≠ id) ∧
    (∀ e ∈ s.parking_events, e.zone_id ≠ id → e ∈ (deleteZone s id).2.parking_events) ∧
    (∀ r ∈ s.occupancy_log, r.zone_id ≠ id → r ∈ (deleteZone s id).2.occupancy_log) ∧
    (∀ z ∈ s.zones, z.id ≠ id → z ∈ (deleteZone s id).2.zones) ∧
    ((deleteZone s id).2.sessions = s.sessions) ∧
    (∀ since, ∀ g ∈ (getParkingStats (deleteZone s id).2 since).byZone, g.zone_id ≠ id) ∧
    (∀ since, (getParkingStats (deleteZone s id).2 since).currentOccupied = s.sessions.size) := by
  refine ⟨?_, ?_, ?_, ?_, ?_, ?_, ?_, rfl, ?_, fun _ => rfl⟩
  · simp [deleteZone, List.any_eq_true]
  · intro e he
    have := List.mem_filter.mp he
    simpa using this.2
  · intro r hr
    have := List.mem_filter.mp hr
    simpa using this.2
  · intro z hz
    have := List.mem_filter.mp hz
    simpa using this.2
  · intro e he hne
    exact List.mem_filter.mpr ⟨he, by simpa using hne⟩
  · intro r hr hne
    exact List.mem_filter.mpr ⟨hr, by simpa using hne⟩
  · intro z hz hne
    exact List.mem_filter.mpr ⟨hz, by simpa using hne⟩
  · intro since g hg
    simp only [getParkingStats, List.mem_map] at hg
    rcases hg with ⟨p, hp, hgp⟩
    have hp' := List.mem_dedup.mp hp
    rcases List.mem_map.mp hp' with ⟨e, he, hpe⟩
    have he' := eventsSince_subset _ _ _ he
    have hez : e.zone_id ≠ id := by
      have := List.mem_filter.mp he'
      simpa using this.2
    rw [← hgp]
    simpa [← hpe] using hez

theorem analyzeFrame_count_eq (frame : GrayImage) (bg : Option GrayImage)
    (polygon : List Pt) (opts : AnalyzeOptions) (r : AnalysisResultRec)
    (h : analyzeFrame frame bg polygon opts = Except.ok r) : r.count = r.blobs.length := by
  rcases bg with _ | b
  · simp only [analyzeFrame, Except.ok.injEq] at h
    rw [← h]
  · by_cases hd : frame.width = b.width ∧ frame.height = b.height
    · simp only [analyzeFrame] at h
      rw [if_pos hd] at h
      simp only [Except.ok.injEq] at h
      rw [← h]
    · simp only [analyzeFrame, hd, if_false] at h
      exact absurd h (by simp)

/-- Claim C5: whenever the active mode is an external one and the
external-detector call fails in any way (transport error, non-OK HTTP
status, or an `error` field in the parsed payload), detection falls back
to the blob variant with a null background and returns its (possibly
empty) detections as a normal result: no exception surfaces. -/
theorem detectHailo_fallback (frame : GrayImage) (polygon : List Pt)
    (modelType : ModelType) (opts : DetOptions) (outcome : HailoOutcome)
    (hfail : hailoFailed outcome) :
    detectHailo frame polygon modelType opts outcome =
      detectBlob frame none polygon
        { minBlobArea := some 500, maxBlobArea := some 50000
          confidenceThreshold := none, classes := none } ∧
    ∃ r, detectHailo frame polygon modelType opts outcome = Except.ok r ∧
      r.mode = DetectionMode.blob ∧ r.count = r.detections.length := by
  have heq : detectHailo frame polygon modelType opts outcome =
      detectBlob frame none polygon
        { minBlobArea := some 500, maxBlobArea := some 50000
          confidenceThreshold := none, classes := none } := by
    rcases outcome with m | ⟨st, bd⟩ | p
    · rfl
    · rfl
    · have hp : p.error.isSome := hfail
      simp [detectHailo, hp]
  refine ⟨heq, ?_⟩
  rw [heq]
  obtain ⟨a, ha⟩ : ∃ a, analyzeFrame frame none polygon
      { threshold := none, minBlobArea := some (jsOrNat (some 500) 500)
        maxBlobArea := some (jsOrNat (some 50000) 50000), morphIterations := none } =
      Except.ok a := ⟨_, rfl⟩
  refine ⟨{ detections := a.blobs.map fun b =>
              { cls := "object", confidence := 1
                bbox := { x := (b.boundingBox.x : ℚ), y := (b.boundingBox.y : ℚ)
                          width := (b.boundingBox.width : ℚ)
                          height := (b.boundingBox.height : ℚ) } }
            count := a.count, mode := DetectionMode.blob }, ?_, rfl, ?_⟩
  · rw [detectBlob, ha]
    rfl
  · have hc := analyzeFrame_count_eq _ _ _ _ _ ha
    simp [hc]

/-- Witness for C5: a 503 from the external detector with mode
`external-yolo`; the caller receives a normal, empty blob result. -/
theorem detectHailo_fallback_witness :
    hailoFailed (HailoOutcome.httpError 503 "Service Unavailable") ∧
    detectHailo ⟨[], 0, 0⟩ [] ModelType.yolov5
        { minBlobArea := some 120, maxBlobArea := some 9000
          confidenceThreshold := some (9 / 10), classes := some ["car"] }
        (HailoOutcome.httpError 503 "Service Unavailable") =
      detectBlob ⟨[], 0, 0⟩ none []
        { minBlobArea := some 500, maxBlobArea := some 50000
          confidenceThreshold := none, classes := none } ∧
    detectHailo ⟨[], 0, 0⟩ [] ModelType.yolov5
        { minBlobArea := some 120, maxBlobArea := some 9000
          confidenceThreshold := some (9 / 10), classes := some ["car"] }
        (HailoOutcome.httpError 503 "Service Unavailable") =
      Except.ok { detections := [], count := 0, mode := DetectionMode.blob } := by
  refine ⟨trivial, ?_, ?_⟩
  · exact (detectHailo_fallback ⟨[], 0, 0⟩ [] ModelType.yolov5
      { minBlobArea := some 120, maxBlobArea := some 9000
        confidenceThreshold := some (9 / 10), classes := some ["car"] }
      (HailoOutcome.httpError 503 "Service Unavailable") trivial).1
  · rfl

/-- Claim C9: whenever the external-detector path falls back to blob
detection, the fallback analysis runs with `min_blob_area = 500`,
`max_blob_area = 50000` and a null background, whatever options the caller
passed to `detectInFrame`: the result is independent of the caller's
options, and equals the blob analysis at exactly those bounds. -/
theorem detectHailo_fallback_fixed_bounds (frame : GrayImage) (polygon : List Pt)
    (modelType : ModelType) (opts opts' : DetOptions) (outcome : HailoOutcome)
    (hfail : hailoFailed outcome) :
    detectHailo frame polygon modelType opts outcome =
      detectHailo frame polygon modelType opts' outcome ∧
    detectHailo frame polygon modelType opts outcome =
      (analyzeFrame frame none polygon
          { threshold := none, minBlobArea := some 500
            maxBlobArea := some 50000, morphIterations := none }).map fun a =>
        { detections := a.blobs.map fun b =>
            { cls := "object", confidence := 1
              bbox := { x := (b.boundingBox.x : ℚ), y := (b.boundingBox.y : ℚ)
                        width := (b.boundingBox.width : ℚ)
                        height := (b.boundingBox.height : ℚ) } }
          count := a.count
          mode := DetectionMode.blob } := by
  have h1 := (detectHailo_fallback frame polygon modelType opts outcome hfail).1
  have h2 := (detectHailo_fallback frame polygon modelType opts' outcome hfail).1
  refine ⟨by rw [h1, h2], ?_⟩
  rw [h1, detectBlob]
  rfl

/-- Witness for C9: a transport failure; two different option records give
the same fallback result, fixed at bounds 500 and 50000. -/
theorem detectHailo_fallback_fixed_bounds_witness :
    hailoFailed (HailoOutcome.transportError "ECONNREFUSED") ∧
    detectHailo ⟨[], 0, 0⟩ [] ModelType.ssd
        { minBlobArea := some 1000, maxBlobArea := some 2000
          confidenceThreshold := some (1 / 4), classes := some ["bus"] }
        (HailoOutcome.transportError "ECONNREFUSED") =
      detectHailo ⟨[], 0, 0⟩ [] ModelType.ssd
        { minBlobArea := none, maxBlobArea := none
          confidenceThreshold := none, classes := none }
        (HailoOutcome.transportError "ECONNREFUSED") := by
  refine ⟨trivial, ?_⟩
  exact (detectHailo_fallback_fixed_bounds ⟨[], 0, 0⟩ [] ModelType.ssd
    { minBlobArea := some 1000, maxBlobArea := some 2000
      confidenceThreshold := some (1 / 4), classes := some ["bus"] }
    { minBlobArea := none, maxBlobArea := none
      confidenceThreshold := none, classes := none }
    (HailoOutcome.transportError "ECONNREFUSED") trivial).1

/-! ## Flood-fill invariants -/

theorem floodLoop_nil (bin : Nat → Nat) (w h L : Nat) (hL : L ≠ 0)
    (labels : Nat → Nat) (stats : FloodStats) :
    floodLoop bin w h L hL [] labels stats = (labels, stats) := by
  rw [floodLoop]

theorem floodLoop_oob (bin : Nat → Nat) (w h L : Nat) (hL : L ≠ 0)
    (x y : Int) (rest : List (Int × Int)) (labels : Nat → Nat) (stats : FloodStats)
    (hin : ¬(0 ≤ x ∧ x < (w : Int) ∧ 0 ≤ y ∧ y < (h : Int))) :
    floodLoop bin w h L hL ((x, y) :: rest) labels stats =
      floodLoop bin w h L hL rest labels stats := by
  rw [floodLoop]
  rw [dif_neg hin]

theorem floodLoop_skip (bin : Nat → Nat) (w h L : Nat) (hL : L ≠ 0)
    (x y : Int) (rest : List (Int × Int)) (labels : Nat → Nat) (stats : FloodStats)
    (hin : 0 ≤ x ∧ x < (w : Int) ∧ 0 ≤ y ∧ y < (h : Int))
    (hsk : bin (y.toNat * w + x.toNat) = 0 ∨ labels (y.toNat * w + x.toNat) ≠ 0) :
    floodLoop bin w h L hL ((x, y) :: rest) labels stats =
      floodLoop bin w h L hL rest labels stats := by
  rw [floodLoop]
  rw [dif_pos hin, dif_pos hsk]

theorem floodLoop_label (bin : Nat → Nat) (w h L : Nat) (hL : L ≠ 0)
    (x y : Int) (rest : List (Int × Int)) (labels : Nat → Nat) (stats : FloodStats)
    (hin : 0 ≤ x ∧ x < (w : Int) ∧ 0 ≤ y ∧ y < (h : Int))
    (hsk : ¬(bin (y.toNat * w + x.toNat) = 0 ∨ labels (y.toNat * w + x.toNat) ≠ 0)) :
    floodLoop bin w h L hL ((x, y) :: rest) labels stats =
      floodLoop bin w h L hL
        ((x, y - 1) :: (x, y + 1) :: (x - 1, y) :: (x + 1, y) :: rest)
        (labelSet labels (y.toNat * w + x.toNat) L)
        { area := stats.area + 1
          sumX := stats.sumX + x.toNat, sumY := stats.sumY + y.toNat
          minX := min stats.minX x.toNat, minY := min stats.minY y.toNat
          maxX := max stats.maxX x.toNat, maxY := max stats.maxY y.toNat } := by
  rw [floodLoop]
  rw [dif_pos hin, dif_neg hsk]

/-- How one flood call can change a label: it either leaves it alone or
writes `L` onto a previously unlabeled foreground pixel. -/
theorem floodLoop_labels_cases (bin : Nat → Nat) (w h L : Nat) (hL : L ≠ 0)
    (stack : List (Int × Int)) (labels : Nat → Nat) (stats : FloodStats) (j : Nat) :
    (floodLoop bin w h L hL stack labels stats).1 j = labels j ∨
      (labels j = 0 ∧ (floodLoop bin w h L hL stack labels stats).1 j = L ∧ bin j ≠ 0) := by
  induction stack, labels, stats using floodLoop.induct bin w h L hL with
  | case1 labels stats =>
    rw [floodLoop_nil]
    exact Or.inl rfl
  | case2 x y rest labels stats hin hsk ih =>
    rw [floodLoop_skip bin w h L hL x y rest labels stats hin hsk]
    exact ih
  | case3 x y rest labels stats hin hsk ih =>
    rw [floodLoop_label bin w h L hL x y rest labels stats hin hsk]
    push_neg at hsk
    by_cases hj : j = y.toNat * w + x.toNat
    · subst hj
      rcases ih with ih | ih
      · simp only [labelSet, if_pos rfl] at ih
        exact Or.inr ⟨hsk.2, ih, hsk.1⟩
      · simp only [labelSet, if_pos rfl] at ih
        exact absurd ih.1 hL
    · rcases ih with ih | ih
      · simp only [labelSet, if_neg hj] at ih
        exact Or.inl ih
      · simp only [labelSet, if_neg hj] at ih
        exact Or.inr ih
  | case4 x y rest labels stats hin ih =>
    rw [floodLoop_oob bin w h L hL x y rest labels stats hin]
    exact ih

/-- A pixel that already carries a label keeps it through a flood call. -/
theorem floodLoop_preserves_labeled (bin : Nat → Nat) (w h L : Nat) (hL : L ≠ 0)
    (stack : List (Int × Int)) (labels : Nat → Nat) (stats : FloodStats) (j : Nat)
    (hj : labels j ≠ 0) :
    (floodLoop bin w h L hL stack labels stats).1 j = labels j := by
  rcases floodLoop_labels_cases bin w h L hL stack labels stats j with hc | hc
  · exact hc
  · exact absurd hc.1 hj

/-- Every in-range foreground pixel on the stack is labeled by the time the
flood call returns. -/
theorem floodLoop_stack_labeled (bin : Nat → Nat) (w h L : Nat) (hL : L ≠ 0)
    (stack : List (Int × Int)) (labels : Nat → Nat) (stats : FloodStats) :
    ∀ (x y : Int), (x, y) ∈ stack →
      (0 ≤ x ∧ x < (w : Int) ∧ 0 ≤ y ∧ y < (h : Int)) →
      bin (y.toNat * w + x.toNat) ≠ 0 →
      (floodLoop bin w h L hL stack labels stats).1 (y.toNat * w + x.toNat) ≠ 0 := by
  induction stack, labels, stats using floodLoop.induct bin w h L hL with
  | case1 labels stats =>
    intro x y hmem
    simp at hmem
  | case2 x0 y0 rest labels stats hin hsk ih =>
    intro x y hmem hxy hbin
    rw [floodLoop_skip bin w h L hL x0 y0 rest labels stats hin hsk]
    rcases List.mem_cons.mp hmem with heq | hmem'
    · have hx : x = x0 := (Prod.mk.injEq _ _ _ _ ▸ heq).1
      have hy : y = y0 := (Prod.mk.injEq _ _ _ _ ▸ heq).2
      subst hx; subst hy
      rcases hsk with hsk | hsk
      · exact absurd hsk hbin
      · rw [floodLoop_preserves_labeled bin w h L hL rest labels stats _ hsk]
        exact hsk
    · exact ih x y hmem' hxy hbin
  | case3 x0 y0 rest labels stats hin hsk ih =>
    intro x y hmem hxy hbin
    rw [floodLoop_label bin w h L hL x0 y0 rest labels stats hin hsk]
    push_neg at hsk
    rcases List.mem_cons.mp hmem with heq | hmem'
    · have hx : x = x0 := (Prod.mk.injEq _ _ _ _ ▸ heq).1
      have hy : y = y0 := (Prod.mk.injEq _ _ _ _ ▸ heq).2
      subst hx; subst hy
      have hlab : labelSet labels (y.toNat * w + x.toNat) L (y.toNat * w + x.toNat) = L := by
        simp [labelSet]
      have := floodLoop_preserves_labeled bin w h L hL
        ((x, y - 1) :: (x, y + 1) :: (x - 1, y) :: (x + 1, y) :: rest)
        (labelSet labels (y.toNat * w + x.toNat) L)
        { area := stats.area + 1
          sumX := stats.sumX + x.toNat, sumY := stats.sumY + y.toNat
          minX := min stats.minX x.toNat, minY := min stats.minY y.toNat
          maxX := max stats.maxX x.toNat, maxY := max stats.maxY y.toNat }
        (y.toNat * w + x.toNat) (by rw [hlab]; exact hL)
      rw [this, hlab]
      exact hL
    · exact ih x y (by simp [hmem']) hxy hbin
  | case4 x0 y0 rest labels stats hin ih =>
    intro x y hmem hxy hbin
    rw [floodLoop_oob bin w h L hL x0 y0 rest labels stats hin]
    rcases List.mem_cons.mp hmem with heq | hmem'
    · have hx : x = x0 := (Prod.mk.injEq _ _ _ _ ▸ heq).1
      have hy : y = y0 := (Prod.mk.injEq _ _ _ _ ▸ heq).2
      subst hx; subst hy
      exact absurd hxy hin
    · exact ih x y hmem' hxy hbin

theorem adjacent_symm (w i j : Nat) (h : adjacent w i j) : adjacent w j i := by
  rcases h with ⟨h1, h2⟩ | ⟨h1, h2⟩
  · exact Or.inl ⟨h1.symm, h2.symm⟩
  · exact Or.inr ⟨h1.symm, h2.symm⟩

theorem idx_lt_of_coords (w h px py : Nat) (hx : px < w) (hy : py < h) :
    py * w + px < w * h := by
  have h1 : py + 1 ≤ h := hy
  have h2 : (py + 1) * w ≤ h * w := Nat.mul_le_mul_right w h1
  have h3 : (py + 1) * w = py * w + w := by ring
  have h4 : h * w = w * h := Nat.mul_comm h w
  omega

theorem idx_mod_of_lt (w px py : Nat) (hx : px < w) : (py * w + px) % w = px := by
  rw [Nat.mul_comm py w, Nat.mul_add_mod, Nat.mod_eq_of_lt hx]

theorem idx_div_of_lt (w px py : Nat) (hx : px < w) : (py * w + px) / w = py := by
  have hw : 0 < w := by omega
  rw [Nat.mul_comm py w, Nat.mul_add_div hw, Nat.div_eq_of_lt hx, Nat.add_zero]

/-- Every in-range pixel 4-adjacent to the popped pixel `(x, y)` appears
among the four pushed coordinates. -/
theorem adjacent_mem_pushes (w h : Nat) (x y : Int)
    (hin : 0 ≤ x ∧ x < (w : Int) ∧ 0 ≤ y ∧ y < (h : Int))
    (k : Nat) (hk : k < w * h)
    (hadj : adjacent w (y.toNat * w + x.toNat) k) :
    ∃ xk yk : Int,
      (xk, yk) ∈ [(x, y - 1), (x, y + 1), (x - 1, y), (x + 1, y)] ∧
      (0 ≤ xk ∧ xk < (w : Int) ∧ 0 ≤ yk ∧ yk < (h : Int)) ∧
      yk.toNat * w + xk.toNat = k := by
  have hw : 0 < w := by omega
  have hpxw : x.toNat < w := by omega
  have hpyh : y.toNat < h := by omega
  have hkd : w * (k / w) + k % w = k := Nat.div_add_mod k w
  have hkx : k % w < w := Nat.mod_lt _ hw
  have hcw : w * (k / w) = (k / w) * w := Nat.mul_comm _ _
  have hA : w * y.toNat = y.toNat * w := Nat.mul_comm _ _
  have hky : k / w < h := by
    by_contra hc
    push_neg at hc
    have h1 : h * w ≤ (k / w) * w := Nat.mul_le_mul_right w hc
    have h2 : h * w = w * h := Nat.mul_comm h w
    omega
  have him : (y.toNat * w + x.toNat) % w = x.toNat := idx_mod_of_lt w x.toNat y.toNat hpxw
  have hid : (y.toNat * w + x.toNat) / w = y.toNat := idx_div_of_lt w x.toNat y.toNat hpxw
  rcases hadj with ⟨hrow, hcol⟩ | ⟨hcol, hrow⟩
  · rw [hid] at hrow
    rcases hcol with hcol | hcol
    · -- k = i + 1 : the (x+1, y) push
      have hkw : k / w = y.toNat := by
        have h1 : w * (k / w) = w * y.toNat := by
          rw [hrow]
        exact Nat.eq_of_mul_eq_mul_left hw (by rw [h1])
      rw [hkw] at hkd
      have hxk1 : x.toNat + 1 < w := by omega
      refine ⟨x + 1, y, by simp, by omega, ?_⟩
      have e1 : (x + 1).toNat = x.toNat + 1 := by omega
      rw [e1]
      omega
    · -- i = k + 1 : the (x-1, y) push
      have hkw : k / w = y.toNat := by
        have h1 : w * (k / w) = w * y.toNat := by
          rw [hrow]
        exact Nat.eq_of_mul_eq_mul_left hw (by rw [h1])
      rw [hkw] at hkd
      have hx1 : 1 ≤ x.toNat := by omega
      refine ⟨x - 1, y, by simp, by omega, ?_⟩
      have e1 : (x - 1).toNat = x.toNat - 1 := by omega
      rw [e1]
      omega
  · rw [him] at hcol
    rcases hrow with hrow | hrow
    · -- k = i + w : the (x, y+1) push
      have hBsum : w * (k / w) = y.toNat * w + w := by omega
      have hyk : k / w = y.toNat + 1 := by
        have h1 : w * (k / w) = w * (y.toNat + 1) := by
          rw [hBsum]
          ring
        exact Nat.eq_of_mul_eq_mul_left hw h1
      refine ⟨x, y + 1, by simp, by omega, ?_⟩
      have e1 : (y + 1).toNat = y.toNat + 1 := by omega
      rw [e1]
      have e2 : (y.toNat + 1) * w = y.toNat * w + w := by ring
      omega
    · -- i = k + w : the (x, y-1) push
      have hpy1 : 1 ≤ y.toNat := by
        rcases Nat.eq_zero_or_pos y.toNat with h0 | h0
        · rw [h0] at hrow
          simp at hrow
          omega
        · exact h0
      refine ⟨x, y - 1, by simp, by omega, ?_⟩
      have e1 : (y - 1).toNat = y.toNat - 1 := by omega
      rw [e1]
      have e2 : (y.toNat - 1) * w + w = y.toNat * w := by
        have h1 : y.toNat - 1 + 1 = y.toNat := by omega
        calc (y.toNat - 1) * w + w = (y.toNat - 1 + 1) * w := by ring
          _ = y.toNat * w := by rw [h1]
      omega

/-- Every in-range pushed coordinate is 4-adjacent to the popped pixel and
its index lies in the plane. -/
theorem pushes_adjacent (w h : Nat) (x y xk yk : Int)
    (hin : 0 ≤ x ∧ x < (w : Int) ∧ 0 ≤ y ∧ y < (h : Int))
    (hmem : (xk, yk) ∈ [(x, y - 1), (x, y + 1), (x - 1, y), (x + 1, y)])
    (hkin : 0 ≤ xk ∧ xk < (w : Int) ∧ 0 ≤ yk ∧ yk < (h : Int)) :
    adjacent w (y.toNat * w + x.toNat) (yk.toNat * w + xk.toNat) ∧
      yk.toNat * w + xk.toNat < w * h := by
  have hw : 0 < w := by omega
  have hpxw : x.toNat < w := by omega
  have hpyh : y.toNat < h := by omega
  have hxkw : xk.toNat < w := by omega
  have hykh : yk.toNat < h := by omega
  refine ⟨?_, idx_lt_of_coords w h xk.toNat yk.toNat hxkw hykh⟩
  simp only [List.mem_cons, List.mem_singleton, Prod.mk.injEq] at hmem
  rcases hmem with ⟨hx, hy⟩ | ⟨hx, hy⟩ | ⟨hx, hy⟩ | ⟨hx, hy⟩ | h5
  case inr.inr.inr.inr => cases h5
  · -- (x, y-1)
    have e1 : xk.toNat = x.toNat := by omega
    have e2 : yk.toNat + 1 = y.toNat := by omega
    refine Or.inr ⟨?_, Or.inr ?_⟩
    · rw [idx_mod_of_lt w x.toNat y.toNat hpxw, idx_mod_of_lt w xk.toNat yk.toNat hxkw, e1]
    · rw [e1]
      have e3 : (yk.toNat + 1) * w = yk.toNat * w + w := by ring
      rw [← e2]
      omega
  · -- (x, y+1)
    have e1 : xk.toNat = x.toNat := by omega
    have e2 : yk.toNat = y.toNat + 1 := by omega
    refine Or.inr ⟨?_, Or.inl ?_⟩
    · rw [idx_mod_of_lt w x.toNat y.toNat hpxw, idx_mod_of_lt w xk.toNat yk.toNat hxkw, e1]
    · rw [e1, e2]
      have e3 : (y.toNat + 1) * w = y.toNat * w + w := by ring
      omega
  · -- (x-1, y)
    have e1 : xk.toNat + 1 = x.toNat := by omega
    have e2 : yk.toNat = y.toNat := by omega
    refine Or.inl ⟨?_, Or.inr ?_⟩
    · rw [idx_div_of_lt w x.toNat y.toNat hpxw, idx_div_of_lt w xk.toNat yk.toNat hxkw, e2]
    · rw [e2]
      omega
  · -- (x+1, y)
    have e1 : xk.toNat = x.toNat + 1 := by omega
    have e2 : yk.toNat = y.toNat := by omega
    refine Or.inl ⟨?_, Or.inl ?_⟩
    · rw [idx_div_of_lt w x.toNat y.toNat hpxw, idx_div_of_lt w xk.toNat yk.toNat hxkw, e2]
    · rw [e1, e2]
      omega

/-- Once the flood labels a pixel `L`, every in-range foreground neighbor
of it is labeled by the time the call returns. -/
theorem floodLoop_new_label_neighbors (bin : Nat → Nat) (w h L : Nat) (hL : L ≠ 0)
    (stack : List (Int × Int)) (labels : Nat → Nat) (stats : FloodStats) :
    ∀ j, labels j = 0 → (floodLoop bin w h L hL stack labels stats).1 j = L →
      ∀ k, k < w * h → adjacent w j k → bin k ≠ 0 →
        (floodLoop bin w h L hL stack labels stats).1 k ≠ 0 := by
  induction stack, labels, stats using floodLoop.induct bin w h L hL with
  | case1 labels stats =>
    intro j hj0 hjL
    rw [floodLoop_nil] at hjL
    exact absurd (hj0 ▸ hjL) (Ne.symm hL)
  | case2 x y rest labels stats hin hsk ih =>
    intro j hj0 hjL k hklt hadj hbink
    rw [floodLoop_skip bin w h L hL x y rest labels stats hin hsk] at hjL ⊢
    exact ih j hj0 hjL k hklt hadj hbink
  | case3 x y rest labels stats hin hsk ih =>
    intro j hj0 hjL k hklt hadj hbink
    rw [floodLoop_label bin w h L hL x y rest labels stats hin hsk] at hjL ⊢
    push_neg at hsk
    by_cases hj : j = y.toNat * w + x.toNat
    · subst hj
      obtain ⟨xk, yk, hmem, hinK, hidxk⟩ := adjacent_mem_pushes w h x y hin k hklt hadj
      have hmem' : (xk, yk) ∈
          ((x, y - 1) :: (x, y + 1) :: (x - 1, y) :: (x + 1, y) :: rest) := by
        simp only [List.mem_cons, Prod.mk.injEq] at hmem ⊢
        tauto
      have := floodLoop_stack_labeled bin w h L hL
        ((x, y - 1) :: (x, y + 1) :: (x - 1, y) :: (x + 1, y) :: rest)
        (labelSet labels (y.toNat * w + x.toNat) L)
        { area := stats.area + 1
          sumX := stats.sumX + x.toNat, sumY := stats.sumY + y.toNat
          minX := min stats.minX x.toNat, minY := min stats.minY y.toNat
          maxX := max stats.maxX x.toNat, maxY := max stats.maxY y.toNat }
        xk yk hmem' hinK (by rw [hidxk]; exact hbink)
      rw [hidxk] at this
      exact this
    · exact ih j (by simp [labelSet, hj, hj0]) hjL k hklt hadj hbink
  | case4 x y rest labels stats hin ih =>
    intro j hj0 hjL k hklt hadj hbink
    rw [floodLoop_oob bin w h L hL x y rest labels stats hin] at hjL ⊢
    exact ih j hj0 hjL k hklt hadj hbink

theorem labelClass_labelSet (w h : Nat) (labels : Nat → Nat) (L idx : Nat)
    (hidx : idx < w * h) :
    labelClass w h (labelSet labels idx L) L = insert idx (labelClass w h labels L) := by
  ext j
  simp only [labelClass, labelSet, Finset.mem_insert, Finset.mem_filter, Finset.mem_range]
  by_cases hj : j = idx
  · subst hj
    simp [hidx]
  · simp [hj]

theorem labelClass_not_mem (w h : Nat) (labels : Nat → Nat) (L idx : Nat)
    (h0 : labels idx ≠ L) : idx ∉ labelClass w h labels L := by
  simp [labelClass, h0]

theorem statsOK_update (w h L s0x s0y : Nat) (labels : Nat → Nat) (st : FloodStats)
    (hok : StatsOK w h L s0x s0y labels st) (px py : Nat) (hx : px < w) (hy : py < h)
    (h0 : labels (py * w + px) = 0) (hL : L ≠ 0) :
    StatsOK w h L s0x s0y (labelSet labels (py * w + px) L)
      { area := st.area + 1, sumX := st.sumX + px, sumY := st.sumY + py
        minX := min st.minX px, minY := min st.minY py
        maxX := max st.maxX px, maxY := max st.maxY py } := by
  have hidx : py * w + px < w * h := idx_lt_of_coords w h px py hx hy
  have hnm : (py * w + px) ∉ labelClass w h labels L :=
    labelClass_not_mem w h labels L _ (by rw [h0]; exact Ne.symm hL)
  have hcls := labelClass_labelSet w h labels L (py * w + px) hidx
  have hmod : (py * w + px) % w = px := idx_mod_of_lt w px py hx
  have hdiv : (py * w + px) / w = py := idx_div_of_lt w px py hx
  refine ⟨?_, ?_, ?_, ?_, ?_, ?_, ?_, ?_, ?_, ?_, ?_, ?_, ?_, ?_, ?_⟩
  · show st.area + 1 = _
    rw [hcls, Finset.card_insert_of_not_mem hnm, hok.area_eq]
  · show st.sumX + px = _
    rw [hcls, Finset.sum_insert hnm, hok.sumX_eq, hmod]
    omega
  · show st.sumY + py = _
    rw [hcls, Finset.sum_insert hnm, hok.sumY_eq, hdiv]
    omega
  · rw [hcls]
    rcases Nat.le_total st.minX px with hc | hc
    · rw [min_eq_left hc]
      rcases hok.minX_mem with hm | ⟨i, hi, him⟩
      · exact Or.inl hm
      · exact Or.inr ⟨i, Finset.mem_insert_of_mem hi, him⟩
    · rw [min_eq_right hc]
      exact Or.inr ⟨py * w + px, Finset.mem_insert_self _ _, hmod⟩
  · exact le_trans (min_le_left _ _) hok.minX_le_start
  · intro i hi
    rw [hcls] at hi
    rcases Finset.mem_insert.mp hi with hi | hi
    · rw [hi, hmod]
      exact min_le_right _ _
    · exact le_trans (min_le_left _ _) (hok.minX_le i hi)
  · rw [hcls]
    rcases Nat.le_total st.minY py with hc | hc
    · rw [min_eq_left hc]
      rcases hok.minY_mem with hm | ⟨i, hi, him⟩
      · exact Or.inl hm
      · exact Or.inr ⟨i, Finset.mem_insert_of_mem hi, him⟩
    · rw [min_eq_right hc]
      exact Or.inr ⟨py * w + px, Finset.mem_insert_self _ _, hdiv⟩
  · exact le_trans (min_le_left _ _) hok.minY_le_start
  · intro i hi
    rw [hcls] at hi
    rcases Finset.mem_insert.mp hi with hi | hi
    · rw [hi, hdiv]
      exact min_le_right _ _
    · exact le_trans (min_le_left _ _) (hok.minY_le i hi)
  · rw [hcls]
    rcases Nat.le_total st.maxX px with hc | hc
    · rw [max_eq_right hc]
      exact Or.inr ⟨py * w + px, Finset.mem_insert_self _ _, hmod⟩
    · rw [max_eq_left hc]
      rcases hok.maxX_mem with hm | ⟨i, hi, him⟩
      · exact Or.inl hm
      · exact Or.inr ⟨i, Finset.mem_insert_of_mem hi, him⟩
  · exact le_trans hok.maxX_ge_start (le_max_left _ _)
  · intro i hi
    rw [hcls] at hi
    rcases Finset.mem_insert.mp hi with hi | hi
    · rw [hi, hmod]
      exact le_max_right _ _
    · exact le_trans (hok.maxX_ge i hi) (le_max_left _ _)
  · rw [hcls]
    rcases Nat.le_total st.maxY py with hc | hc
    · rw [max_eq_right hc]
      exact Or.inr ⟨py * w + px, Finset.mem_insert_self _ _, hdiv⟩
    · rw [max_eq_left hc]
      rcases hok.maxY_mem with hm | ⟨i, hi, him⟩
      · exact Or.inl hm
      · exact Or.inr ⟨i, Finset.mem_insert_of_mem hi, him⟩
  · exact le_trans hok.maxY_ge_start (le_max_left _ _)
  · intro i hi
    rw [hcls] at hi
    rcases Finset.mem_insert.mp hi with hi | hi
    · rw [hi, hdiv]
      exact le_max_right _ _
    · exact le_trans (hok.maxY_ge i hi) (le_max_left _ _)

/-- The flood loop maintains `StatsOK`. -/
theorem floodLoop_statsOK (bin : Nat → Nat) (w h L : Nat) (hL : L ≠ 0)
    (s0x s0y : Nat) (stack : List (Int × Int)) (labels : Nat → Nat) (stats : FloodStats)
    (hok : StatsOK w h L s0x s0y labels stats) :
    StatsOK w h L s0x s0y (floodLoop bin w h L hL stack labels stats).1
      (floodLoop bin w h L hL stack labels stats).2 := by
  induction stack, labels, stats using floodLoop.induct bin w h L hL with
  | case1 labels stats =>
    rw [floodLoop_nil]
    exact hok
  | case2 x y rest labels stats hin hsk ih =>
    rw [floodLoop_skip bin w h L hL x y rest labels stats hin hsk]
    exact ih hok
  | case3 x y rest labels stats hin hsk ih =>
    rw [floodLoop_label bin w h L hL x y rest labels stats hin hsk]
    push_neg at hsk
    have hx : x.toNat < w := by omega
    have hy : y.toNat < h := by omega
    exact ih (statsOK_update w h L s0x s0y labels stats hok x.toNat y.toNat hx hy hsk.2 hL)
  | case4 x y rest labels stats hin ih =>
    rw [floodLoop_oob bin w h L hL x y rest labels stats hin]
    exact ih hok

theorem ReachIn.mono {w : Nat} {M N : Finset Nat} (hMN : M ⊆ N) {i j : Nat}
    (hr : ReachIn w M i j) : ReachIn w N i j := by
  induction hr with
  | refl hi => exact ReachIn.refl _ (hMN hi)
  | step j k hij hk hjk ih => exact ReachIn.step _ _ _ ih (hMN hk) hjk

/-- The flood loop grows a set of `L`-labeled pixels all reachable from the
start pixel `s0`, provided every stack entry is the start or adjacent to an
already labeled pixel. -/
theorem floodLoop_connected (bin : Nat → Nat) (w h L : Nat) (hL : L ≠ 0)
    (stack : List (Int × Int)) (labels : Nat → Nat) (stats : FloodStats) :
    ∀ s0 : Nat,
      (∀ j ∈ labelClass w h labels L, ReachIn w (labelClass w h labels L) s0 j) →
      (∀ x y : Int, (x, y) ∈ stack → (0 ≤ x ∧ x < (w : Int) ∧ 0 ≤ y ∧ y < (h : Int)) →
        (y.toNat * w + x.toNat = s0 ∨
          ∃ j ∈ labelClass w h labels L, adjacent w j (y.toNat * w + x.toNat))) →
      ∀ j ∈ labelClass w h (floodLoop bin w h L hL stack labels stats).1 L,
        ReachIn w (labelClass w h (floodLoop bin w h L hL stack labels stats).1 L) s0 j := by
  induction stack, labels, stats using floodLoop.induct bin w h L hL with
  | case1 labels stats =>
    intro s0 hreach hstack
    rw [floodLoop_nil]
    exact hreach
  | case2 x y rest labels stats hin hsk ih =>
    intro s0 hreach hstack
    rw [floodLoop_skip bin w h L hL x y rest labels stats hin hsk]
    exact ih s0 hreach (fun xk yk hmem hinK => hstack xk yk (List.mem_cons_of_mem _ hmem) hinK)
  | case3 x y rest labels stats hin hsk ih =>
    intro s0 hreach hstack
    rw [floodLoop_label bin w h L hL x y rest labels stats hin hsk]
    push_neg at hsk
    have hx : x.toNat < w := by omega
    have hy : y.toNat < h := by omega
    have hidx : y.toNat * w + x.toNat < w * h := idx_lt_of_coords w h x.toNat y.toNat hx hy
    have hcls := labelClass_labelSet w h labels L (y.toNat * w + x.toNat) hidx
    have hsub : labelClass w h labels L ⊆
        labelClass w h (labelSet labels (y.toNat * w + x.toNat) L) L := by
      rw [hcls]
      exact Finset.subset_insert _ _
    have hself : (y.toNat * w + x.toNat) ∈
        labelClass w h (labelSet labels (y.toNat * w + x.toNat) L) L := by
      rw [hcls]
      exact Finset.mem_insert_self _ _
    apply ih s0
    · intro j hj
      rw [hcls] at hj
      rcases Finset.mem_insert.mp hj with hj | hj
      · subst hj
        rcases hstack x y (List.mem_cons_self _ _) hin with hs0 | ⟨j0, hj0, hadj⟩
        · rw [hs0]
          exact ReachIn.refl _ (hs0 ▸ hself)
        · exact ReachIn.step s0 j0 _ ((hreach j0 hj0).mono hsub) hself hadj
      · exact ((hreach j hj).mono hsub)
    · intro xk yk hmem hinK
      have hmem4 : (xk, yk) ∈ [(x, y - 1), (x, y + 1), (x - 1, y), (x + 1, y)] ∨
          (xk, yk) ∈ rest := by
        simp only [List.mem_cons, Prod.mk.injEq] at hmem ⊢
        tauto
      rcases hmem4 with hmem4 | hmem4
      · right
        exact ⟨y.toNat * w + x.toNat, hself,
          (pushes_adjacent w h x y xk yk hin hmem4 hinK).1⟩
      · rcases hstack xk yk (List.mem_cons_of_mem _ hmem4) hinK with hs0 | ⟨j0, hj0, hadj⟩
        · exact Or.inl hs0
        · exact Or.inr ⟨j0, hsub hj0, hadj⟩
  | case4 x y rest labels stats hin ih =>
    intro s0 hreach hstack
    rw [floodLoop_oob bin w h L hL x y rest labels stats hin]
    exact ih s0 hreach (fun xk yk hmem hinK => hstack xk yk (List.mem_cons_of_mem _ hmem) hinK)

theorem scan_start_coords (w h i : Nat) (hi : i < w * h) :
    (0 ≤ ((i % w : Nat) : Int) ∧ ((i % w : Nat) : Int) < (w : Int) ∧
     0 ≤ ((i / w : Nat) : Int) ∧ ((i / w : Nat) : Int) < (h : Int)) ∧
    ((i / w : Nat) : Int).toNat * w + ((i % w : Nat) : Int).toNat = i := by
  have hw : 0 < w := by
    rcases Nat.eq_zero_or_pos w with h0 | h0
    · subst h0
      simp at hi
    · exact h0
  have hx : i % w < w := Nat.mod_lt _ hw
  have hy : i / w < h := by
    by_contra hc
    push_neg at hc
    have h1 : h * w ≤ (i / w) * w := Nat.mul_le_mul_right w hc
    have h2 : (i / w) * w ≤ i := Nat.div_mul_le_self i w
    have h3 : h * w = w * h := Nat.mul_comm h w
    omega
  constructor
  · exact ⟨Int.natCast_nonneg _, by exact_mod_cast hx, Int.natCast_nonneg _, by exact_mod_cast hy⟩
  · simp only [Int.toNat_natCast]
    exact Nat.div_add_mod' i w

/-- A fresh label's class is empty when every label is below it. -/
theorem labelClass_empty_of_bound (w h : Nat) (labels : Nat → Nat) (cur : Nat)
    (hbound : ∀ j, labels j ≤ cur) :
    labelClass w h labels (cur + 1) = ∅ := by
  ext j
  simp only [labelClass, Finset.mem_filter, Finset.mem_range, Finset.not_mem_empty, iff_false]
  intro ⟨_, hj⟩
  have := hbound j
  omega

theorem scanFlood_cases (bin : Nat → Nat) (w h cur i : Nat) (labels : Nat → Nat) (j : Nat) :
    (scanFlood bin w h cur i labels).1 j = labels j ∨
      (labels j = 0 ∧ (scanFlood bin w h cur i labels).1 j = cur + 1 ∧ bin j ≠ 0) :=
  floodLoop_labels_cases bin w h (cur + 1) (Nat.succ_ne_zero cur) _ labels _ j

theorem scanFlood_preserves (bin : Nat → Nat) (w h cur i : Nat) (labels : Nat → Nat)
    (j : Nat) (hj : labels j ≠ 0) :
    (scanFlood bin w h cur i labels).1 j = labels j := by
  rcases scanFlood_cases bin w h cur i labels j with hc | hc
  · exact hc
  · exact absurd hc.1 hj

theorem scanFlood_start (bin : Nat → Nat) (w h cur i : Nat) (labels : Nat → Nat)
    (hi : i < w * h) (hfg : bin i ≠ 0) (hl0 : labels i = 0) :
    (scanFlood bin w h cur i labels).1 i = cur + 1 := by
  obtain ⟨hin, hidx⟩ := scan_start_coords w h i hi
  have h1 := floodLoop_stack_labeled bin w h (cur + 1) (Nat.succ_ne_zero cur)
    [(((i % w : Nat) : Int), ((i / w : Nat) : Int))] labels
    { area := 0, sumX := 0, sumY := 0
      minX := i % w, minY := i / w, maxX := i % w, maxY := i / w }
    ((i % w : Nat) : Int) ((i / w : Nat) : Int) (List.mem_singleton.mpr rfl) hin
    (by rw [hidx]; exact hfg)
  rw [hidx] at h1
  rcases scanFlood_cases bin w h cur i labels i with hc | hc
  · rw [hl0] at hc
    exact absurd hc h1
  · exact hc.2.1

theorem scanFlood_statsOK (bin : Nat → Nat) (w h cur i : Nat) (labels : Nat → Nat)
    (hbound : ∀ j, labels j ≤ cur) :
    StatsOK w h (cur + 1) (i % w) (i / w)
      (scanFlood bin w h cur i labels).1 (scanFlood bin w h cur i labels).2 := by
  apply floodLoop_statsOK
  have hempty := labelClass_empty_of_bound w h labels cur hbound
  exact ⟨by simp [hempty], by simp [hempty], by simp [hempty],
    Or.inl rfl, le_refl _, by simp [hempty],
    Or.inl rfl, le_refl _, by simp [hempty],
    Or.inl rfl, le_refl _, by simp [hempty],
    Or.inl rfl, le_refl _, by simp [hempty]⟩

theorem scanFlood_connected (bin : Nat → Nat) (w h cur i : Nat) (labels : Nat → Nat)
    (hi : i < w * h) (hbound : ∀ j, labels j ≤ cur) :
    ∀ j ∈ labelClass w h (scanFlood bin w h cur i labels).1 (cur + 1),
      ReachIn w (labelClass w h (scanFlood bin w h cur i labels).1 (cur + 1)) i j := by
  obtain ⟨hin, hidx⟩ := scan_start_coords w h i hi
  apply floodLoop_connected
  · rw [labelClass_empty_of_bound w h labels cur hbound]
    intro j hj
    exact absurd hj (Finset.not_mem_empty j)
  · intro x y hmem hinK
    simp only [List.mem_singleton, Prod.mk.injEq] at hmem
    left
    rw [hmem.1, hmem.2]
    exact hidx

theorem scanFlood_stable (bin : Nat → Nat) (w h cur i : Nat) (labels : Nat → Nat)
    (L' : Nat) (h1 : 1 ≤ L') (h2 : L' ≤ cur) :
    labelClass w h (scanFlood bin w h cur i labels).1 L' = labelClass w h labels L' := by
  ext j
  simp only [labelClass, Finset.mem_filter, Finset.mem_range, and_congr_right_iff]
  intro hj
  constructor
  · intro hout
    rcases scanFlood_cases bin w h cur i labels j with hc | hc
    · rw [← hc]
      exact hout
    · rw [hout] at hc
      omega
  · intro hlab
    have : (scanFlood bin w h cur i labels).1 j = labels j :=
      floodLoop_preserves_labeled bin w h (cur + 1) (Nat.succ_ne_zero cur) _ labels _ j
        (by rw [hlab]; omega)
    rw [this, hlab]

theorem scanFlood_bound (bin : Nat → Nat) (w h cur i : Nat) (labels : Nat → Nat)
    (hbound : ∀ j, labels j ≤ cur) :
    ∀ j, (scanFlood bin w h cur i labels).1 j ≤ cur + 1 := by
  intro j
  rcases scanFlood_cases bin w h cur i labels j with hc | hc
  · rw [hc]
    exact le_trans (hbound j) (Nat.le_succ cur)
  · rw [hc.2.1]

theorem scanFlood_foreground (bin : Nat → Nat) (w h cur i : Nat) (labels : Nat → Nat)
    (hbound : ∀ j, labels j ≤ cur) :
    ∀ j ∈ labelClass w h (scanFlood bin w h cur i labels).1 (cur + 1), bin j ≠ 0 := by
  intro j hj
  simp only [labelClass, Finset.mem_filter, Finset.mem_range] at hj
  rcases scanFlood_cases bin w h cur i labels j with hc | hc
  · rw [hj.2] at hc
    have := hbound j
    omega
  · exact hc.2.2

theorem scanFlood_blobOK (bin : Nat → Nat) (w h cur i : Nat) (labels : Nat → Nat)
    (hi : i < w * h) (hfg : bin i ≠ 0) (hl0 : labels i = 0)
    (hbound : ∀ j, labels j ≤ cur) :
    BlobOK bin w h (scanFlood bin w h cur i labels).1
      (blobOfStats (cur + 1) (scanFlood bin w h cur i labels).2) := by
  have hiM : i ∈ labelClass w h (scanFlood bin w h cur i labels).1 (cur + 1) := by
    simp only [labelClass, Finset.mem_filter, Finset.mem_range]
    exact ⟨hi, scanFlood_start bin w h cur i labels hi hfg hl0⟩
  have hst := scanFlood_statsOK bin w h cur i labels hbound
  have hminXmem : ∃ j ∈ labelClass w h (scanFlood bin w h cur i labels).1 (cur + 1),
      j % w = (scanFlood bin w h cur i labels).2.minX := by
    rcases hst.minX_mem with he | h'
    · exact ⟨i, hiM, he.symm⟩
    · exact h'
  have hminYmem : ∃ j ∈ labelClass w h (scanFlood bin w h cur i labels).1 (cur + 1),
      j / w = (scanFlood bin w h cur i labels).2.minY := by
    rcases hst.minY_mem with he | h'
    · exact ⟨i, hiM, he.symm⟩
    · exact h'
  have hmaxXmem : ∃ j ∈ labelClass w h (scanFlood bin w h cur i labels).1 (cur + 1),
      j % w = (scanFlood bin w h cur i labels).2.maxX := by
    rcases hst.maxX_mem with he | h'
    · exact ⟨i, hiM, he.symm⟩
    · exact h'
  have hmaxYmem : ∃ j ∈ labelClass w h (scanFlood bin w h cur i labels).1 (cur + 1),
      j / w = (scanFlood bin w h cur i labels).2.maxY := by
    rcases hst.maxY_mem with he | h'
    · exact ⟨i, hiM, he.symm⟩
    · exact h'
  exact
    { nonempty := ⟨i, hiM⟩
      foreground := scanFlood_foreground bin w h cur i labels hbound
      connected := ⟨i, hiM, scanFlood_connected bin w h cur i labels hi hbound⟩
      area_eq := hst.area_eq
      centroid_x := by rw [blobOfStats, hst.sumX_eq, hst.area_eq]
      centroid_y := by rw [blobOfStats, hst.sumY_eq, hst.area_eq]
      bbox_x_mem := hminXmem
      bbox_x_le := hst.minX_le
      bbox_y_mem := hminYmem
      bbox_y_le := hst.minY_le
      bbox_width := ⟨(scanFlood bin w h cur i labels).2.maxX, hmaxXmem, hst.maxX_ge, rfl⟩
      bbox_height := ⟨(scanFlood bin w h cur i labels).2.maxY, hmaxYmem, hst.maxY_ge, rfl⟩ }

/-- A blob with an already used (smaller) id keeps its `BlobOK` facts
through a later flood: that flood only writes the fresh label. -/
theorem blobOK_stable (bin : Nat → Nat) (w h cur i : Nat) (labels : Nat → Nat)
    (b : Blob) (hok : BlobOK bin w h labels b) (h1 : 1 ≤ b.id) (h2 : b.id ≤ cur) :
    BlobOK bin w h (scanFlood bin w h cur i labels).1 b := by
  have hcl := scanFlood_stable bin w h cur i labels b.id h1 h2
  exact
    { nonempty := by rw [hcl]; exact hok.nonempty
      foreground := by rw [hcl]; exact hok.foreground
      connected := by rw [hcl]; exact hok.connected
      area_eq := by rw [hcl]; exact hok.area_eq
      centroid_x := by rw [hcl]; exact hok.centroid_x
      centroid_y := by rw [hcl]; exact hok.centroid_y
      bbox_x_mem := by rw [hcl]; exact hok.bbox_x_mem
      bbox_x_le := by rw [hcl]; exact hok.bbox_x_le
      bbox_y_mem := by rw [hcl]; exact hok.bbox_y_mem
      bbox_y_le := by rw [hcl]; exact hok.bbox_y_le
      bbox_width := by rw [hcl]; exact hok.bbox_width
      bbox_height := by rw [hcl]; exact hok.bbox_height }

/-- The "adjacent foreground pixels share a label once labeled" invariant
survives one scan flood. -/
theorem scanFlood_same_label (bin : Nat → Nat) (w h cur i : Nat) (labels : Nat → Nat)
    (hsame : ∀ a k, a < w * h → k < w * h → adjacent w a k → bin a ≠ 0 → bin k ≠ 0 →
      labels a ≠ 0 → labels k = labels a) :
    ∀ a k, a < w * h → k < w * h → adjacent w a k → bin a ≠ 0 → bin k ≠ 0 →
      (scanFlood bin w h cur i labels).1 a ≠ 0 →
      (scanFlood bin w h cur i labels).1 k = (scanFlood bin w h cur i labels).1 a := by
  intro a k ha hk hadj hfga hfgk hne
  rcases scanFlood_cases bin w h cur i labels a with hca | hca
  · rw [hca] at hne ⊢
    have hlabk : labels k = labels a := hsame a k ha hk hadj hfga hfgk hne
    have hpk : (scanFlood bin w h cur i labels).1 k = labels k :=
      floodLoop_preserves_labeled bin w h (cur + 1) (Nat.succ_ne_zero cur) _ labels _ k
        (by rw [hlabk]; exact hne)
    rw [hpk, hlabk]
  · rw [hca.2.1] at hne ⊢
    have hkne : (scanFlood bin w h cur i labels).1 k ≠ 0 :=
      floodLoop_new_label_neighbors bin w h (cur + 1) (Nat.succ_ne_zero cur) _ labels _
        a hca.1 hca.2.1 k hk hadj hfgk
    rcases scanFlood_cases bin w h cur i labels k with hcb | hcb
    · rw [hcb] at hkne
      have := hsame k a hk ha (adjacent_symm w a k hadj) hfgk hfga hkne
      rw [hca.1] at this
      exact absurd this.symm hkne
    · exact hcb.2.1

theorem blobScan_nil (bin : Nat → Nat) (w h minA maxA : Nat)
    (labels : Nat → Nat) (cur : Nat) (acc : List Blob) :
    blobScan bin w h minA maxA [] labels cur acc = (labels, cur, acc) := by
  rw [blobScan]

theorem blobScan_cons_pos (bin : Nat → Nat) (w h minA maxA i : Nat) (rest : List Nat)
    (labels : Nat → Nat) (cur : Nat) (acc : List Blob)
    (hguard : bin i = 255 ∧ labels i = 0) :
    blobScan bin w h minA maxA (i :: rest) labels cur acc =
      blobScan bin w h minA maxA rest (scanFlood bin w h cur i labels).1 (cur + 1)
        (if minA ≤ (scanFlood bin w h cur i labels).2.area ∧
            (scanFlood bin w h cur i labels).2.area ≤ maxA
         then acc ++ [blobOfStats (cur + 1) (scanFlood bin w h cur i labels).2]
         else acc) := by
  rw [blobScan, if_pos hguard]

theorem blobScan_cons_neg (bin : Nat → Nat) (w h minA maxA i : Nat) (rest : List Nat)
    (labels : Nat → Nat) (cur : Nat) (acc : List Blob)
    (hguard : ¬(bin i = 255 ∧ labels i = 0)) :
    blobScan bin w h minA maxA (i :: rest) labels cur acc =
      blobScan bin w h minA maxA rest labels cur acc := by
  rw [blobScan, if_neg hguard]

/-- The scan invariant propagates to the end of the scan. -/
theorem blobScan_inv (bin : Nat → Nat) (w h minA maxA : Nat) (todo : List Nat) :
    ∀ (labels : Nat → Nat) (cur : Nat) (acc : List Blob),
      (∀ a ∈ todo, a < w * h) →
      ScanInv bin w h minA maxA todo labels cur acc →
      ScanInv bin w h minA maxA []
        (blobScan bin w h minA maxA todo labels cur acc).1
        (blobScan bin w h minA maxA todo labels cur acc).2.1
        (blobScan bin w h minA maxA todo labels cur acc).2.2 := by
  induction todo with
  | nil =>
    intro labels cur acc htodo hinv
    rw [blobScan_nil]
    exact hinv
  | cons i rest ih =>
    intro labels cur acc htodo hinv
    have hrest : ∀ a ∈ rest, a < w * h := fun a ha => htodo a (List.mem_cons_of_mem i ha)
    by_cases hguard : bin i = 255 ∧ labels i = 0
    · have hi : i < w * h := htodo i (List.mem_cons_self i rest)
      have hfg : bin i ≠ 0 := by rw [hguard.1]; omega
      rw [blobScan_cons_pos bin w h minA maxA i rest labels cur acc hguard]
      apply ih _ _ _ hrest
      have hstart := scanFlood_start bin w h cur i labels hi hfg hguard.2
      have hiM : i ∈ labelClass w h (scanFlood bin w h cur i labels).1 (cur + 1) := by
        simp only [labelClass, Finset.mem_filter, Finset.mem_range]
        exact ⟨hi, hstart⟩
      have hst := scanFlood_statsOK bin w h cur i labels hinv.bound
      have hnewok := scanFlood_blobOK bin w h cur i labels hi hfg hguard.2 hinv.bound
      refine
        { bound := scanFlood_bound bin w h cur i labels hinv.bound
          ids := ?_
          sorted := ?_
          ok := ?_
          gate := ?_
          emit_iff := ?_
          same := scanFlood_same_label bin w h cur i labels hinv.same
          covered := ?_ }
      · intro b hb
        by_cases harea : minA ≤ (scanFlood bin w h cur i labels).2.area ∧
            (scanFlood bin w h cur i labels).2.area ≤ maxA
        · rw [if_pos harea] at hb
          rcases List.mem_append.mp hb with hb | hb
          · have := hinv.ids b hb
            omega
          · rw [List.mem_singleton.mp hb]
            exact ⟨Nat.succ_pos cur, le_refl _⟩
        · rw [if_neg harea] at hb
          have := hinv.ids b hb
          omega
      · by_cases harea : minA ≤ (scanFlood bin w h cur i labels).2.area ∧
            (scanFlood bin w h cur i labels).2.area ≤ maxA
        · rw [if_pos harea]
          rw [List.chain'_append]
          refine ⟨hinv.sorted, List.chain'_singleton _, ?_⟩
          intro x hx y hy
          simp only [List.head?_cons, Option.mem_def, Option.some.injEq] at hy
          obtain ⟨hne, hx'⟩ := List.mem_getLast?_eq_getLast hx
          have hxmem : x ∈ acc := hx' ▸ List.getLast_mem hne
          have := hinv.ids x hxmem
          rw [← hy]
          show x.id < cur + 1
          omega
        · rw [if_neg harea]
          exact hinv.sorted
      · intro b hb
        by_cases harea : minA ≤ (scanFlood bin w h cur i labels).2.area ∧
            (scanFlood bin w h cur i labels).2.area ≤ maxA
        · rw [if_pos harea] at hb
          rcases List.mem_append.mp hb with hb | hb
          · have hid := hinv.ids b hb
            exact blobOK_stable bin w h cur i labels b (hinv.ok b hb) hid.1 hid.2
          · rw [List.mem_singleton.mp hb]
            exact hnewok
        · rw [if_neg harea] at hb
          have hid := hinv.ids b hb
          exact blobOK_stable bin w h cur i labels b (hinv.ok b hb) hid.1 hid.2
      · intro b hb
        by_cases harea : minA ≤ (scanFlood bin w h cur i labels).2.area ∧
            (scanFlood bin w h cur i labels).2.area ≤ maxA
        · rw [if_pos harea] at hb
          rcases List.mem_append.mp hb with hb | hb
          · exact hinv.gate b hb
          · rw [List.mem_singleton.mp hb]
            show minA ≤ (blobOfStats (cur + 1) (scanFlood bin w h cur i labels).2).area ∧
              (blobOfStats (cur + 1) (scanFlood bin w h cur i labels).2).area ≤ maxA
            rw [blobOfStats]
            exact harea
        · rw [if_neg harea] at hb
          exact hinv.gate b hb
      · intro Lb h1 h2
        by_cases hLb : Lb = cur + 1
        · subst hLb
          have hcard : (labelClass w h (scanFlood bin w h cur i labels).1 (cur + 1)).card =
              (scanFlood bin w h cur i labels).2.area := hst.area_eq.symm
          refine ⟨⟨i, hiM⟩, ?_⟩
          rw [hcard]
          by_cases harea : minA ≤ (scanFlood bin w h cur i labels).2.area ∧
              (scanFlood bin w h cur i labels).2.area ≤ maxA
          · rw [if_pos harea]
            constructor
            · intro _
              exact harea
            · intro _
              exact ⟨blobOfStats (cur + 1) (scanFlood bin w h cur i labels).2,
                List.mem_append_right _ (List.mem_singleton.mpr rfl), rfl⟩
          · rw [if_neg harea]
            constructor
            · rintro ⟨b, hb, hbid⟩
              have := hinv.ids b hb
              omega
            · intro hc
              exact absurd hc harea
        · have h2' : Lb ≤ cur := by omega
          have hstable := scanFlood_stable bin w h cur i labels Lb h1 h2'
          have hold := hinv.emit_iff Lb h1 h2'
          rw [hstable]
          refine ⟨hold.1, ?_⟩
          rw [← hold.2]
          by_cases harea : minA ≤ (scanFlood bin w h cur i labels).2.area ∧
              (scanFlood bin w h cur i labels).2.area ≤ maxA
          · rw [if_pos harea]
            constructor
            · rintro ⟨b, hb, hbid⟩
              rcases List.mem_append.mp hb with hb | hb
              · exact ⟨b, hb, hbid⟩
              · rw [List.mem_singleton.mp hb] at hbid
                exact absurd ((show (cur + 1) = Lb from hbid)) (fun hc => hLb hc.symm)
            · rintro ⟨b, hb, hbid⟩
              exact ⟨b, List.mem_append_left _ hb, hbid⟩
          · rw [if_neg harea]
      · intro a ha hfga
        rcases hinv.covered a ha hfga with hl | hmem
        · left
          rw [scanFlood_preserves bin w h cur i labels a hl]
          exact hl
        · rcases List.mem_cons.mp hmem with heq | hmem'
          · left
            rw [heq, hstart]
            omega
          · right
            exact hmem'
    · rw [blobScan_cons_neg bin w h minA maxA i rest labels cur acc hguard]
      apply ih _ _ _ hrest
      refine
        { bound := hinv.bound
          ids := hinv.ids
          sorted := hinv.sorted
          ok := hinv.ok
          gate := hinv.gate
          emit_iff := hinv.emit_iff
          same := hinv.same
          covered := ?_ }
      intro a ha hfga
      rcases hinv.covered a ha hfga with hl | hmem
      · exact Or.inl hl
      · rcases List.mem_cons.mp hmem with heq | hmem'
        · subst heq
          left
          intro hc
          exact hguard ⟨hfga, hc⟩
        · exact Or.inr hmem'

/-- Claim C6: `findBlobs` on a binary `w × h` plane performs a 4-connected
flood fill in row-major scan order: fresh ids are assigned in encounter
order (strictly increasing down the emitted list), a component is emitted
iff `min_area ≤ area ≤ max_area`, every foreground pixel is labeled and
adjacent foreground pixels share one label (so classes are maximal
components), and each emitted blob's pixel class is a non-empty 4-connected
set of foreground pixels whose cardinality is the blob's area, whose
integer-rounded coordinate means are the centroid, and whose inclusive
min/max box is the bounding box (`width = max_x - min_x + 1`,
`height = max_y - min_y + 1`). -/
theorem findBlobs_connected_components (bin : List Nat) (w h minA maxA : Nat)
    (hlen : bin.length = w * h) (hbin : ∀ v ∈ bin, v = 0 ∨ v = 255) :
    List.Chain' (fun a b => a.id < b.id) (findBlobs bin w h minA maxA) ∧
    (∀ b ∈ findBlobs bin w h minA maxA, minA ≤ b.area ∧ b.area ≤ maxA) ∧
    (∀ i, i < w * h → bin.getD i 0 = 255 →
      (findBlobsFull bin w h minA maxA).1 i ≠ 0) ∧
    (∀ i k, i < w * h → k < w * h → adjacent w i k →
      bin.getD i 0 = 255 → bin.getD k 0 = 255 →
      (findBlobsFull bin w h minA maxA).1 i = (findBlobsFull bin w h minA maxA).1 k) ∧
    (∀ b ∈ findBlobs bin w h minA maxA,
      (labelClass w h (findBlobsFull bin w h minA maxA).1 b.id).Nonempty ∧
      (∀ i ∈ labelClass w h (findBlobsFull bin w h minA maxA).1 b.id,
        bin.getD i 0 = 255) ∧
      (∃ r ∈ labelClass w h (findBlobsFull bin w h minA maxA).1 b.id,
        ∀ j ∈ labelClass w h (findBlobsFull bin w h minA maxA).1 b.id,
          ReachIn w (labelClass w h (findBlobsFull bin w h minA maxA).1 b.id) r j) ∧
      b.area = (labelClass w h (findBlobsFull bin w h minA maxA).1 b.id).card ∧
      b.centroid.1 = jsRoundNat
        (∑ i ∈ labelClass w h (findBlobsFull bin w h minA maxA).1 b.id, i % w)
        (labelClass w h (findBlobsFull bin w h minA maxA).1 b.id).card ∧
      b.centroid.2 = jsRoundNat
        (∑ i ∈ labelClass w h (findBlobsFull bin w h minA maxA).1 b.id, i / w)
        (labelClass w h (findBlobsFull bin w h minA maxA).1 b.id).card ∧
      (∃ i ∈ labelClass w h (findBlobsFull bin w h minA maxA).1 b.id,
        i % w = b.boundingBox.x) ∧
      (∀ i ∈ labelClass w h (findBlobsFull bin w h minA maxA).1 b.id,
        b.boundingBox.x ≤ i % w) ∧
      (∃ i ∈ labelClass w h (findBlobsFull bin w h minA maxA).1 b.id,
        i / w = b.boundingBox.y) ∧
      (∀ i ∈ labelClass w h (findBlobsFull bin w h minA maxA).1 b.id,
        b.boundingBox.y ≤ i / w) ∧
      (∃ mx, (∃ i ∈ labelClass w h (findBlobsFull bin w h minA maxA).1 b.id,
          i % w = mx) ∧
        (∀ i ∈ labelClass w h (findBlobsFull bin w h minA maxA).1 b.id, i % w ≤ mx) ∧
        b.boundingBox.width = mx - b.boundingBox.x + 1) ∧
      (∃ my, (∃ i ∈ labelClass w h (findBlobsFull bin w h minA maxA).1 b.id,
          i / w = my) ∧
        (∀ i ∈ labelClass w h (findBlobsFull bin w h minA maxA).1 b.id, i / w ≤ my) ∧
        b.boundingBox.height = my - b.boundingBox.y + 1)) ∧
    (∀ Lb, 1 ≤ Lb → Lb ≤ (findBlobsFull bin w h minA maxA).2.1 →
      (labelClass w h (findBlobsFull bin w h minA maxA).1 Lb).Nonempty ∧
      ((∃ b ∈ findBlobs bin w h minA maxA, b.id = Lb) ↔
        (minA ≤ (labelClass w h (findBlobsFull bin w h minA maxA).1 Lb).card ∧
         (labelClass w h (findBlobsFull bin w h minA maxA).1 Lb).card ≤ maxA))) := by
  have hb2 : ∀ i, bin.getD i 0 = 0 ∨ bin.getD i 0 = 255 := by
    intro i
    by_cases hi : i < bin.length
    · rw [List.getD_eq_getElem _ _ hi]
      exact hbin _ (List.getElem_mem hi)
    · rw [List.getD_eq_default _ _ (by omega)]
      exact Or.inl rfl
  have hinit : ScanInv (fun i => bin.getD i 0) w h minA maxA (List.range (w * h))
      (fun _ => 0) 0 [] := by
    refine
      { bound := fun _ => le_refl 0
        ids := by intro b hb; exact absurd hb (List.not_mem_nil b)
        sorted := List.chain'_nil
        ok := by intro b hb; exact absurd hb (List.not_mem_nil b)
        gate := by intro b hb; exact absurd hb (List.not_mem_nil b)
        emit_iff := by intro Lb h1 h2; omega
        same := by intro a k _ _ _ _ _ hne; exact absurd rfl hne
        covered := by intro a ha _; exact Or.inr (List.mem_range.mpr ha) }
  have hfinal := blobScan_inv (fun i => bin.getD i 0) w h minA maxA
    (List.range (w * h)) (fun _ => 0) 0 []
    (fun a ha => List.mem_range.mp ha) hinit
  refine ⟨hfinal.sorted, hfinal.gate, ?_, ?_, ?_, hfinal.emit_iff⟩
  · intro i hi h255
    rcases hfinal.covered i hi h255 with hl | hmem
    · exact hl
    · exact absurd hmem (List.not_mem_nil i)
  · intro i k hi hk hadj h255i h255k
    have hlabi : (findBlobsFull bin w h minA maxA).1 i ≠ 0 := by
      rcases hfinal.covered i hi h255i with hl | hmem
      · exact hl
      · exact absurd hmem (List.not_mem_nil i)
    exact (hfinal.same i k hi hk hadj (by rw [h255i]; omega) (by rw [h255k]; omega) hlabi).symm
  · intro b hb
    have hok := hfinal.ok b hb
    refine ⟨hok.nonempty, ?_, hok.connected, hok.area_eq, hok.centroid_x, hok.centroid_y,
      hok.bbox_x_mem, hok.bbox_x_le, hok.bbox_y_mem, hok.bbox_y_le,
      hok.bbox_width, hok.bbox_height⟩
    intro i hi
    have := hok.foreground i hi
    rcases hb2 i with h0 | h0
    · exact absurd h0 this
    · exact h0

/-- Witness for C6: a 5x5 binary plane holding a 2x2 square and an isolated
pixel; with the area gate `[2, 100]` the scan emits the square only, with
increasing ids and the gate respected. -/
theorem findBlobs_connected_components_witness :
    List.Chain' (fun a b => a.id < b.id)
      (findBlobs
        [0, 0, 0, 0, 0,
         0, 255, 255, 0, 0,
         0, 255, 255, 0, 0,
         0, 0, 0, 0, 0,
         0, 0, 0, 0, 255] 5 5 2 100) ∧
    (∀ b ∈ findBlobs
        [0, 0, 0, 0, 0,
         0, 255, 255, 0, 0,
         0, 255, 255, 0, 0,
         0, 0, 0, 0, 0,
         0, 0, 0, 0, 255] 5 5 2 100, 2 ≤ b.area ∧ b.area ≤ 100) := by
  have h := findBlobs_connected_components
    [0, 0, 0, 0, 0,
     0, 255, 255, 0, 0,
     0, 255, 255, 0, 0,
     0, 0, 0, 0, 0,
     0, 0, 0, 0, 255] 5 5 2 100 (by decide) (by decide)
  exact ⟨h.1, h.2.1⟩
